import Mathlib

/-!
mkdown: a verification development.

Shallow embedding of `markdown.go` (package `mkdown`) and theorems about the
construction and the rendering of its nodes.

Conventions of the embedding.

* A Go `string` is a Lean `String`; `len(s)` is the UTF-8 byte count
  `String.utf8ByteSize`, and the width that `fmt` pads to is counted in runes,
  `String.length`.
* `bytes.Buffer` is the text accumulated so far; `WriteString` appends and its
  error result is always nil, so the `if err != nil` branches of the source are
  dead and every `Build` that returns, returns a nil error.
* A Go `int` has 64 bits.  `wrap64` gives the value of an `int` expression from
  the exact integer; it is applied where the source multiplies values that the
  caller chooses freely (`NewTable`, `Update`).  `Add`, `AddIgnoreError` and
  `Build` compute with exact integers: the theorems about them concern tables
  whose size or storage length is `row*col`, where the product does not wrap.
* `fmt.Sprintf` with the format that `Table.Build` assembles is `Table.format`;
  `fmt` accepts the field width only below 10000010.
* The lines of an output are its pieces ending with a CRLF, `outputLines`.
* `*Li` and `*List` are addresses into a `Heap`; nil is `none`.  A `*Text` is
  always freshly allocated by `NewText` and never shared, so it is embedded by
  value (`Option Text`, nil being `none`).
* A panic, a nil dereference and an exhausted recursion budget are `Fault`s.
-/

namespace mkdown

/-! ## Data model -/

/-- Accumulated content of a `bytes.Buffer`. -/
abbrev Buffer := String

/-- Ways in which a call does not return normally. -/
inductive Fault where
  | nilDereference
  | indexOutOfRange
  | raised (msg : String)
  | outOfFuel
deriving DecidableEq, Repr

/-- How a method with result type `*Table` ends: it returns its receiver,
returns nil, or panics. -/
inductive Returned where
  | receiver
  | nil
  | panicked (fault : Fault)
deriving DecidableEq, Repr

/-- Text: `type Text struct { line string }`. -/
structure Text where
  line : String
deriving DecidableEq, Repr

/-- The two implementations of the `Sort` interface. -/
inductive Sorter where
  | OrderedList
  | UnOrderedList
deriving DecidableEq, Repr

/-- Li: `type Li struct { child *List; next *Li; text *Text }`. -/
structure Li where
  child : Option Nat
  next : Option Nat
  text : Option Text
deriving DecidableEq, Repr

/-- List of the source (`type List struct { head *Li; tail *Li; sorter Sort }`);
renamed because `List` is Lean's list type. -/
structure MdList where
  head : Option Nat
  tail : Option Nat
  sorter : Option Sorter
deriving DecidableEq, Repr

/-- Heap: the allocated `Li` and `List` objects; an address is an index. -/
structure Heap where
  lis : List Li
  lists : List MdList
deriving DecidableEq, Repr

/-- Title: `type Title struct { heading Heading; text *Text }`, `Heading` being a byte. -/
structure Title where
  heading : Nat
  text : Option Text
deriving DecidableEq, Repr

/-- Table: `type Table struct { row, col int; texts []*Text; size, maxLength int }`. -/
structure Table where
  row : Int
  col : Int
  texts : List (Option Text)
  size : Int
  maxLength : Int
deriving DecidableEq, Repr

deriving instance DecidableEq for Except

/-! ## Library functions used by the source -/

/-- Go `strings.Repeat(s, count)` for a non-negative count. -/
def strings.Repeat (s : String) : Nat → String
  | 0 => ""
  | n + 1 => s ++ strings.Repeat s n

/-- Go `buffer.WriteString(data)`: appends; the error is always nil. -/
def WriteString (buffer : Buffer) (data : String) : Buffer :=
  buffer ++ data

/-- Value of a Go `int` (64 bits, two's complement) computed from the exact
integer `x`: `x` modulo `2^64`, taken in the range from `-2^63` to `2^63-1`. -/
def wrap64 (x : Int) : Int :=
  (x + 9223372036854775808) % 18446744073709551616 - 9223372036854775808

/-- Largest length that `make([]*Text, n)` accepts on a 64-bit platform: the
runtime refuses to allocate more than `2^48` bytes, and a pointer takes 8.
An allocation within this limit is taken to succeed. -/
def maxSliceLen : Int :=
  35184372088832

/-! ## Constructors -/

/-- NewText: `&Text{line: data}`. -/
def NewText (data : String) : Text :=
  { line := data }

/-- NewTitle: a heading without text (`text` is nil). -/
def NewTitle (heading : Nat) : Title :=
  { heading := heading, text := none }

/-- NewTitleWithText: a heading carrying `NewText(title)`. -/
def NewTitleWithText (heading : Nat) (title : String) : Title :=
  { heading := heading, text := some (NewText title) }

/-- NewLi: `&Li{text: NewText(data)}`. -/
def NewLi (data : String) : Li :=
  { child := none, next := none, text := some (NewText data) }

/-- NewOrderedList: allocates an empty list with the ordered sorter. -/
def NewOrderedList (h : Heap) : Heap × Nat :=
  ({ h with lists := h.lists ++ [{ head := none, tail := none, sorter := some .OrderedList }] },
    h.lists.length)

/-- NewUnOrderedList: allocates an empty list with the unordered sorter. -/
def NewUnOrderedList (h : Heap) : Heap × Nat :=
  ({ h with lists := h.lists ++ [{ head := none, tail := none, sorter := some .UnOrderedList }] },
    h.lists.length)

/-! ## List mutation -/

/-- AppendNewLi: allocates `NewLi(data)`, links it at the tail (or as head and
tail of an empty list) and returns its address. -/
def MdList.AppendNewLi (h : Heap) (list : Nat) (data : String) : Except Fault (Heap × Nat) :=
  match h.lists[list]? with
  | none => .error .nilDereference
  | some l =>
    let li := h.lis.length
    let lis := h.lis ++ [NewLi data]
    match l.head with
    | none =>
      .ok ({ lis := lis, lists := h.lists.set list { l with head := some li, tail := some li } }, li)
    | some _ =>
      match l.tail with
      | none => .error .nilDereference
      | some t =>
        match lis[t]? with
        | none => .error .nilDereference
        | some last =>
          .ok ({ lis := lis.set t { last with next := some li },
                 lists := h.lists.set list { l with tail := some li } }, li)

/-- Li.AppendList: `li.child = list`. -/
def Li.AppendList (h : Heap) (li : Nat) (list : Option Nat) : Except Fault Heap :=
  match h.lis[li]? with
  | none => .error .nilDereference
  | some node => .ok { h with lis := h.lis.set li { node with child := list } }

/-- List.AppendList: `list.tail.AppendList(l)`. -/
def MdList.AppendList (h : Heap) (list : Nat) (l : Option Nat) : Except Fault Heap :=
  match h.lists[list]? with
  | none => .error .nilDereference
  | some target =>
    match target.tail with
    | none => .error .nilDereference
    | some t => Li.AppendList h t l

/-! ## Rendering -/

/-- Go `writeLine(data, buffer)`. -/
def writeLine (data : String) (buffer : Buffer) : Buffer :=
  WriteString buffer (data ++ "\r\n")

/-- Go `newLine(buffer)`. -/
def newLine (buffer : Buffer) : Buffer :=
  WriteString buffer "\r\n"

/-- Text.Build: the line, then a blank line. -/
def Text.Build (tt : Text) (buf : Buffer) : Buffer :=
  newLine (writeLine tt.line buf)

/-- Title.Build: overwrites the text with the prefixed line, lets the text
build itself and adds a blank line.  The result is the heading after the call
and the buffer. -/
def Title.Build (title : Title) (buf : Buffer) : Except Fault (Title × Buffer) :=
  match title.text with
  | none => .error .nilDereference
  | some text =>
    let orig := text.line
    let text : Text := { text with line := strings.Repeat "#" title.heading ++ " " ++ orig }
    let buf := text.Build buf
    .ok ({ title with text := some text }, newLine buf)

mutual
/-- Loop of `UnOrderedList.createSort`, entered with the current `node`; one
unit of `fuel` is spent per loop test. -/
def UnOrderedList.walk : Nat → Heap → Buffer → Option Nat → Nat → Except Fault Buffer
  | 0, _, _, _, _ => .error .outOfFuel
  | _ + 1, _, buffer, none, _ => .ok (newLine buffer)
  | fuel + 1, h, buffer, some p, recursiveNum =>
    match h.lis[p]? with
    | none => .error .nilDereference
    | some node =>
      match node.text with
      | none => .error .nilDereference
      | some text =>
        let buffer := WriteString buffer
          (strings.Repeat " " (recursiveNum * 3) ++ "* " ++ text.line ++ "\r\n")
        match node.child with
        | none => UnOrderedList.walk fuel h buffer node.next recursiveNum
        | some child =>
          match Sorter.createSort fuel h buffer child (recursiveNum + 1) with
          | .error e => .error e
          | .ok buffer => UnOrderedList.walk fuel h buffer node.next recursiveNum
termination_by structural fuel => fuel
/-- Loop of `OrderedList.createSort`, entered with the current `node` and the
running `index`. -/
def OrderedList.walk : Nat → Heap → Buffer → Option Nat → Nat → Nat → Except Fault Buffer
  | 0, _, _, _, _, _ => .error .outOfFuel
  | _ + 1, _, buffer, none, _, _ => .ok (newLine buffer)
  | fuel + 1, h, buffer, some p, index, recursiveNum =>
    match h.lis[p]? with
    | none => .error .nilDereference
    | some node =>
      match node.text with
      | none => .error .nilDereference
      | some text =>
        let buffer := WriteString buffer
          (strings.Repeat " " (recursiveNum * 3) ++ toString index ++ ". " ++ text.line ++ "\r\n")
        match node.child with
        | none => OrderedList.walk fuel h buffer node.next (index + 1) recursiveNum
        | some child =>
          match Sorter.createSort fuel h buffer child (recursiveNum + 1) with
          | .error e => .error e
          | .ok buffer => OrderedList.walk fuel h buffer node.next (index + 1) recursiveNum
termination_by structural fuel => fuel
/-- Call `list.sorter.createSort(buffer, list, recursiveNum)`: dispatch on the
sorter of the list at address `list`, then `node := list.head` (and `index := 1`). -/
def Sorter.createSort : Nat → Heap → Buffer → Nat → Nat → Except Fault Buffer
  | 0, _, _, _, _ => .error .outOfFuel
  | fuel + 1, h, buffer, list, recursiveNum =>
    match h.lists[list]? with
    | none => .error .nilDereference
    | some l =>
      match l.sorter with
      | none => .error .nilDereference
      | some .UnOrderedList => UnOrderedList.walk fuel h buffer l.head recursiveNum
      | some .OrderedList => OrderedList.walk fuel h buffer l.head 1 recursiveNum
termination_by structural fuel => fuel
end

/-- List.Build: `list.sorter.createSort(buf, list, 0)`.  No function reachable
from it assigns to a field of a `List` or an `Li`, so the heap after the call
is the heap before it. -/
def MdList.Build (fuel : Nat) (h : Heap) (list : Nat) (buf : Buffer) : Except Fault (Heap × Buffer) :=
  match Sorter.createSort fuel h buf list 0 with
  | .error e => .error e
  | .ok buf => .ok (h, buf)

/-! ## Tables -/

/-- NewTable: `make([]*Text, row*col)`, the product being a Go `int`, panics on
a negative length and on a length above `maxSliceLen`; otherwise every cell
starts as nil. -/
def NewTable (row col : Int) : Except Fault Table :=
  let length := wrap64 (row * col)
  if length < 0 ∨ length > maxSliceLen then .error (.raised "makeslice: len out of range")
  else .ok { row := row, col := col, texts := List.replicate length.toNat none,
             size := 0, maxLength := 0 }

/-- Assignment `texts[index] = value`; `none` when the index is out of range. -/
def storeAt (texts : List (Option Text)) (index : Int) (value : Option Text) :
    Option (List (Option Text)) :=
  if 0 ≤ index ∧ index < texts.length then some (texts.set index.toNat value) else none

/-- Table.Add: panics when the table is full, otherwise raises `maxLength` if
needed, stores the cell at index `size` and increments `size`.  The first
component is the table after the call.  The product `row*col` is computed
exactly: it is the value of the Go `int` on every table whose storage has
`row*col` cells. -/
def Table.Add (table : Table) (data : String) : Table × Returned :=
  let length := table.row * table.col
  if table.size ≥ length then
    (table, .panicked (.raised "the table size will overflow"))
  else
    let table : Table :=
      if (data.utf8ByteSize : Int) > table.maxLength then
        { table with maxLength := data.utf8ByteSize }
      else table
    let index := table.size
    match storeAt table.texts index (some (NewText data)) with
    | none => (table, .panicked .indexOutOfRange)
    | some texts => ({ table with texts := texts, size := table.size + 1 }, .receiver)

/-- Table.AddIgnoreError: as `Add`, but returns nil when the table is full. -/
def Table.AddIgnoreError (table : Table) (data : String) : Table × Returned :=
  let length := table.row * table.col
  if table.size ≥ length then
    (table, .nil)
  else
    let table : Table :=
      if (data.utf8ByteSize : Int) > table.maxLength then
        { table with maxLength := data.utf8ByteSize }
      else table
    let index := table.size
    match storeAt table.texts index (some (NewText data)) with
    | none => (table, .panicked .indexOutOfRange)
    | some texts => ({ table with texts := texts, size := table.size + 1 }, .receiver)

/-- Table.Update: decrements both coordinates, panics when one is out of range,
otherwise raises `maxLength` if needed and stores the cell at
`rowIdx*table.row+colIdx`, computed as a Go `int`. -/
def Table.Update (table : Table) (rowIdx colIdx : Int) (data : String) : Table × Returned :=
  let rowIdx := wrap64 (rowIdx - 1)
  let colIdx := wrap64 (colIdx - 1)
  if rowIdx < 0 ∨ rowIdx ≥ table.row ∨ colIdx < 0 ∨ colIdx ≥ table.col then
    (table, .panicked (.raised
      "the width or length index of the table must be within the specified range of the table"))
  else
    let table : Table :=
      if (data.utf8ByteSize : Int) > table.maxLength then
        { table with maxLength := data.utf8ByteSize }
      else table
    match storeAt table.texts (wrap64 (wrap64 (rowIdx * table.row) + colIdx))
        (some (NewText data)) with
    | none => (table, .panicked .indexOutOfRange)
    | some texts => ({ table with texts := texts }, .receiver)

/-- Chained `Add` calls, `table.Add(d1).Add(d2)...`, stopping at the first one
that does not return its receiver. -/
def Table.AddAll : Table → List String → Table × Returned
  | table, [] => (table, .receiver)
  | table, d :: ds =>
    match table.Add d with
    | (table, .receiver) => Table.AddAll table ds
    | other => other

/-- Go `fmt.Sprintf(format, s)` for `format = "| %-" + strconv.Itoa(maxLength) + "s "`.
`fmt` reads the digits after `%-` as the field width (a further `-` before
them is one more flag) and gives up on a width once the digits read so far
exceed one million, that is from the width 10000010 on: it then finds no verb
and reports the string as an extra argument.  Below that the string is
left-aligned in a field of that many runes, between `"| "` and `" "`. -/
def Table.format (table : Table) (s : String) : String :=
  if table.maxLength.natAbs ≥ 10000010 then "| %!(NOVERB)%!(EXTRA string=" ++ s ++ ")"
  else "| " ++ s ++ strings.Repeat " " (table.maxLength.natAbs - s.length) ++ " "

/-- Write of one cell, `buf.WriteString(fmt.Sprintf(format, table.texts[index].line))`:
the index may be out of range and the cell may be nil. -/
def Table.writeCell (table : Table) (buf : Buffer) (index : Int) : Except Fault Buffer :=
  if 0 ≤ index ∧ index < table.texts.length then
    match table.texts[index.toNat]? with
    | some (some text) => .ok (WriteString buf (table.format text.line))
    | some none => .error .nilDereference
    | none => .error .indexOutOfRange
  else .error .indexOutOfRange

/-- Loop `for c := c0; c < table.col; c++` writing the cells `base+c`, with `n`
iterations left. -/
def Table.cellLoop (table : Table) (base : Int) : Nat → Int → Buffer → Except Fault Buffer
  | 0, _, buf => .ok buf
  | n + 1, c, buf =>
    match table.writeCell buf (base + c) with
    | .error e => .error e
    | .ok buf => Table.cellLoop table base n (c + 1) buf

/-- Loop `for r := r0; r < table.row; r++` writing one body line per row, with
`n` iterations left. -/
def Table.rowLoop (table : Table) : Nat → Int → Buffer → Except Fault Buffer
  | 0, _, buf => .ok buf
  | n + 1, r, buf =>
    match table.cellLoop (r * table.col) table.col.toNat 0 buf with
    | .error e => .error e
    | .ok buf => Table.rowLoop table n (r + 1) (writeLine "|" buf)

/-- Table.Build: header cells and `|`, separator line, body rows, blank line. -/
def Table.Build (table : Table) (buf : Buffer) : Except Fault Buffer :=
  match table.cellLoop 0 table.col.toNat 0 buf with
  | .error e => .error e
  | .ok buf =>
    let buf := writeLine "|" buf
    if table.col < 0 ∨ table.maxLength < 0 then
      .error (.raised "strings: negative Repeat count")
    else
      let buf := WriteString buf
        (strings.Repeat ("| " ++ strings.Repeat "-" table.maxLength.toNat ++ " ") table.col.toNat
          ++ "|\r\n")
      match table.rowLoop (table.row - 1).toNat 1 buf with
      | .error e => .error e
      | .ok buf => .ok (newLine buf)

/-! ## Description of list structures and of their rendering -/

/-- Shape of a chain of items as seen from a `*Li`: the end of the chain, an
item without child list, or an item owning a child list (given by the sorter
of that list and the chain starting at its head). -/
inductive Chain where
  | nil : Chain
  | li (text : String) (next : Chain) : Chain
  | liWith (text : String) (sorter : Sorter) (child : Chain) (next : Chain) : Chain
deriving DecidableEq, Repr

/-- The heap holds chain `c` at `node`: following the `next` and `child` links
from `node` finds exactly the items of `c`, with their texts, child lists and
sorters. -/
def Heap.chainAt (h : Heap) : Option Nat → Chain → Bool
  | none, .nil => true
  | some p, .li t rest =>
    match h.lis[p]? with
    | some node => node.text == some ⟨t⟩ && node.child == none && h.chainAt node.next rest
    | none => false
  | some p, .liWith t s c rest =>
    match h.lis[p]? with
    | some node =>
      match node.child with
      | some q =>
        match h.lists[q]? with
        | some l =>
          node.text == some ⟨t⟩ && l.sorter == some s && h.chainAt l.head c
            && h.chainAt node.next rest
        | none => false
      | none => false
    | none => false
  | _, _ => false

/-- Number of loop tests and calls that rendering a chain takes. -/
def Chain.steps : Chain → Nat
  | .nil => 1
  | .li _ rest => rest.steps + 1
  | .liWith _ _ c rest => c.steps + rest.steps + 2

/-- Number of items of the chain itself (children not counted). -/
def Chain.length : Chain → Nat
  | .nil => 0
  | .li _ rest => rest.length + 1
  | .liWith _ _ _ rest => rest.length + 1

/-- Number of items of the whole tree: the chain and all its descendants. -/
def Chain.itemCount : Chain → Nat
  | .nil => 0
  | .li _ rest => rest.itemCount + 1
  | .liWith _ _ c rest => c.itemCount + rest.itemCount + 1

/-- Number of child lists attached anywhere in the tree. -/
def Chain.childLists : Chain → Nat
  | .nil => 0
  | .li _ rest => rest.childLists
  | .liWith _ _ c rest => c.childLists + rest.childLists + 1

/-- No item of the chain owns a child list. -/
def Chain.flat : Chain → Bool
  | .nil => true
  | .li _ rest => rest.flat
  | .liWith _ _ _ _ => false

/-- Text of the first item of the chain. -/
def Chain.firstText : Chain → Option String
  | .nil => none
  | .li t _ => some t
  | .liWith t _ _ _ => some t

/-- The chain `a` followed by the chain `b`. -/
def Chain.append : Chain → Chain → Chain
  | .nil, b => b
  | .li t rest, b => .li t (rest.append b)
  | .liWith t s c rest, b => .liWith t s c (rest.append b)

/-- Indentation of depth `d`: `d*3` spaces. -/
def indent (d : Nat) : String :=
  strings.Repeat " " (d * 3)

/-- Line of one item at depth `d`: indentation, marker (`* `, or the counter
`k` and `. `), text, CRLF. -/
def itemLine : Sorter → Nat → Nat → String → String
  | .UnOrderedList, _, d, t => indent d ++ "* " ++ t ++ "\r\n"
  | .OrderedList, k, d, t => indent d ++ toString k ++ ". " ++ t ++ "\r\n"

/-- Lines of the items of the chain itself, in append order, the counter
starting at `k`. -/
def Chain.ownLines : Chain → Sorter → Nat → Nat → List String
  | .nil, _, _, _ => []
  | .li t rest, s, k, d => itemLine s k d t :: rest.ownLines s (k + 1) d
  | .liWith t _ _ rest, s, k, d => itemLine s k d t :: rest.ownLines s (k + 1) d

/-- Lines written for the items of a chain, without the final blank line: the
line of each item, followed at once by all the lines of its child list (which
end with that child's own blank line). -/
def Chain.body : Chain → Sorter → Nat → Nat → List String
  | .nil, _, _, _ => []
  | .li t rest, s, k, d => itemLine s k d t :: rest.body s (k + 1) d
  | .liWith t cs c rest, s, k, d =>
    itemLine s k d t :: ((c.body cs 1 (d + 1) ++ ["\r\n"]) ++ rest.body s (k + 1) d)

/-- All lines of a list: the lines of its chain and the trailing blank line. -/
def Chain.lines (c : Chain) (s : Sorter) (k d : Nat) : List String :=
  c.body s k d ++ ["\r\n"]

/-- Concatenation of lines. -/
def concat : List String → String
  | [] => ""
  | l :: ls => l ++ concat ls

/-- The loop of the sorter `s`, entered at `node` with counter `k` (which the
unordered loop does not have). -/
def Sorter.walk : Sorter → Nat → Heap → Buffer → Option Nat → Nat → Nat → Except Fault Buffer
  | .UnOrderedList, fuel, h, buf, node, _, d => UnOrderedList.walk fuel h buf node d
  | .OrderedList, fuel, h, buf, node, k, d => OrderedList.walk fuel h buf node k d

/-- Scan for a CRLF: `crlfFree afterCR cs` holds when no line feed of `cs`
directly follows a carriage return, `afterCR` telling whether the character
before `cs` is a carriage return. -/
def crlfFree : Bool → List Char → Bool
  | _, [] => true
  | afterCR, c :: rest => !(afterCR && c == '\n') && crlfFree (c == '\r') rest

/-- The text holds no CRLF. -/
def noCRLF (s : String) : Bool :=
  crlfFree false s.data

/-- Cut of a text into lines, a line ending with the first CRLF that is
reached.  `cur` is the part of the current line read so far and `afterCR` tells
whether its last character is a carriage return.  Characters after the last
CRLF, if any, form a last piece without terminator. -/
def splitCRLF : List Char → List Char → Bool → List (List Char)
  | [], cur, _ => if cur = [] then [] else [cur]
  | c :: rest, cur, afterCR =>
    if afterCR && c == '\n' then (cur ++ [c]) :: splitCRLF rest [] false
    else splitCRLF rest (cur ++ [c]) (c == '\r')

/-- The CRLF-terminated lines of an output, in order, each with its CRLF. -/
def outputLines (s : String) : List String :=
  (splitCRLF s.data [] false).map String.mk

/-- No item text of the tree (the chain and all its descendants) holds a CRLF. -/
def Chain.plain : Chain → Bool
  | .nil => true
  | .li t rest => noCRLF t && rest.plain
  | .liWith t _ c rest => noCRLF t && c.plain && rest.plain

/-! ## Description of the rendering of a filled table -/

/-- One cell: `"| "`, the text padded with spaces to `w` runes, `" "`. -/
def cellText (w : Nat) (s : String) : String :=
  "| " ++ s ++ strings.Repeat " " (w - s.length) ++ " "

/-- One table line: its cells, each written by `cell`, then `|` and CRLF. -/
def rowLine (cell : String → String) (cells : List String) : String :=
  concat (cells.map cell) ++ "|\r\n"

/-- The separator line: `col` runs of `w` dashes, written like cells. -/
def separatorLine (w col : Nat) : String :=
  concat (List.replicate col ("| " ++ strings.Repeat "-" w ++ " ")) ++ "|\r\n"

/-- The global maximum of the byte lengths of the cells. -/
def maxLen : List String → Nat
  | [] => 0
  | d :: ds => max d.utf8ByteSize (maxLen ds)

/-- The first `n` rows of `col` cells each, cut from a flat row-major list. -/
def rowsOf (col : Nat) : Nat → List String → List (List String)
  | 0, _ => []
  | n + 1, ds => ds.take col :: rowsOf col n (ds.drop col)

/-- Rendering of the cells `ds` of a `row` by `col` table, every cell written
by `cell` and the separator made of runs of `w` dashes: header line, separator
line, `row-1` body lines, blank line. -/
def tableLines (cell : String → String) (w row col : Nat) (ds : List String) : String :=
  rowLine cell (ds.take col) ++ separatorLine w col
    ++ concat ((rowsOf col (row - 1) (ds.drop col)).map (rowLine cell)) ++ "\r\n"

/-- Rendering of a table of `row` by `col` cells `ds` in which every cell is
padded to the global maximum cell length. -/
def tableText (row col : Nat) (ds : List String) : String :=
  tableLines (cellText (maxLen ds)) (maxLen ds) row col ds

/-! ## Concrete structures used as examples -/

/-- Script `ul := NewUnOrderedList(); ul.AppendNewLi("a"); ul.AppendNewLi("b")`. -/
def flatScript : Except Fault (Heap × Nat) := do
  let (h, ul) := NewUnOrderedList ⟨[], []⟩
  let (h, _) ← MdList.AppendNewLi h ul "a"
  let (h, _) ← MdList.AppendNewLi h ul "b"
  pure (h, ul)

/-- Heap that `flatScript` builds; the list is at address 0. -/
def flatHeap : Heap :=
  { lis := [⟨none, some 1, some ⟨"a"⟩⟩, ⟨none, none, some ⟨"b"⟩⟩],
    lists := [⟨some 0, some 1, some .UnOrderedList⟩] }

/-- Script: an unordered list with the single item `a CRLF b`. -/
def crlfScript : Except Fault (Heap × Nat) := do
  let (h, ul) := NewUnOrderedList ⟨[], []⟩
  let (h, _) ← MdList.AppendNewLi h ul "a\r\nb"
  pure (h, ul)

/-- Heap that `crlfScript` builds; the list is at address 0. -/
def crlfHeap : Heap :=
  { lis := [⟨none, none, some ⟨"a\r\nb"⟩⟩], lists := [⟨some 0, some 0, some .UnOrderedList⟩] }

/-- Script: an unordered list with the item `a`, to which an unordered child
list with the item `b` is attached. -/
def nestedScript : Except Fault (Heap × Nat) := do
  let (h, ul) := NewUnOrderedList ⟨[], []⟩
  let (h, child) := NewUnOrderedList h
  let (h, li) ← MdList.AppendNewLi h ul "a"
  let (h, _) ← MdList.AppendNewLi h child "b"
  let h ← Li.AppendList h li (some child)
  pure (h, ul)

/-- Heap that `nestedScript` builds; the parent is at address 0, the child at 1. -/
def nestedHeap : Heap :=
  { lis := [⟨some 1, none, some ⟨"a"⟩⟩, ⟨none, none, some ⟨"b"⟩⟩],
    lists := [⟨some 0, some 0, some .UnOrderedList⟩, ⟨some 1, some 1, some .UnOrderedList⟩] }

/-- Script of `example.go`, with short texts and a third item: an ordered list
`x`, `y`, `z` whose item `y` owns the unordered list `p`, `q`. -/
def mixedScript : Except Fault (Heap × Nat) := do
  let (h, ol) := NewOrderedList ⟨[], []⟩
  let (h, ul) := NewUnOrderedList h
  let (h, _) ← MdList.AppendNewLi h ol "x"
  let (h, li) ← MdList.AppendNewLi h ol "y"
  let (h, _) ← MdList.AppendNewLi h ul "p"
  let (h, _) ← MdList.AppendNewLi h ul "q"
  let h ← Li.AppendList h li (some ul)
  let (h, _) ← MdList.AppendNewLi h ol "z"
  pure (h, ol)

/-- Heap that `mixedScript` builds; the ordered list is at address 0. -/
def mixedHeap : Heap :=
  { lis := [⟨none, some 1, some ⟨"x"⟩⟩, ⟨some 1, some 4, some ⟨"y"⟩⟩, ⟨none, some 3, some ⟨"p"⟩⟩,
            ⟨none, none, some ⟨"q"⟩⟩, ⟨none, none, some ⟨"z"⟩⟩],
    lists := [⟨some 0, some 4, some .OrderedList⟩, ⟨some 2, some 3, some .UnOrderedList⟩] }

/-- Script: an ordered list `x`, `y`, `z` whose item `y` owns the ordered list
`p`, `q`, attached by `List.AppendList` while `y` is the tail. -/
def orderedNestedScript : Except Fault (Heap × Nat) := do
  let (h, ol) := NewOrderedList ⟨[], []⟩
  let (h, child) := NewOrderedList h
  let (h, _) ← MdList.AppendNewLi h ol "x"
  let (h, _) ← MdList.AppendNewLi h ol "y"
  let (h, _) ← MdList.AppendNewLi h child "p"
  let (h, _) ← MdList.AppendNewLi h child "q"
  let h ← MdList.AppendList h ol (some child)
  let (h, _) ← MdList.AppendNewLi h ol "z"
  pure (h, ol)

/-- Heap that `orderedNestedScript` builds; the parent is at address 0, the
ordered child at address 1. -/
def orderedNestedHeap : Heap :=
  { lis := [⟨none, some 1, some ⟨"x"⟩⟩, ⟨some 1, some 4, some ⟨"y"⟩⟩, ⟨none, some 3, some ⟨"p"⟩⟩,
            ⟨none, none, some ⟨"q"⟩⟩, ⟨none, none, some ⟨"z"⟩⟩],
    lists := [⟨some 0, some 4, some .OrderedList⟩, ⟨some 2, some 3, some .OrderedList⟩] }

/-- Script: three unordered lists nested in each other, with the single items
`a`, `b` and `c`. -/
def deepScript : Except Fault (Heap × Nat) := do
  let (h, top) := NewUnOrderedList ⟨[], []⟩
  let (h, mid) := NewUnOrderedList h
  let (h, low) := NewUnOrderedList h
  let (h, a) ← MdList.AppendNewLi h top "a"
  let (h, b) ← MdList.AppendNewLi h mid "b"
  let (h, _) ← MdList.AppendNewLi h low "c"
  let h ← Li.AppendList h b (some low)
  let h ← Li.AppendList h a (some mid)
  pure (h, top)

/-- Heap that `deepScript` builds; the lists are at the addresses 0, 1 and 2. -/
def deepHeap : Heap :=
  { lis := [⟨some 1, none, some ⟨"a"⟩⟩, ⟨some 2, none, some ⟨"b"⟩⟩, ⟨none, none, some ⟨"c"⟩⟩],
    lists := [⟨some 0, some 0, some .UnOrderedList⟩, ⟨some 1, some 1, some .UnOrderedList⟩,
              ⟨some 2, some 2, some .UnOrderedList⟩] }

/-- The 2 by 2 table after `Add("A").Add("BB").Add("C").Add("DDDD")`. -/
def table22 : Table :=
  { row := 2, col := 2, texts := [some ⟨"A"⟩, some ⟨"BB"⟩, some ⟨"C"⟩, some ⟨"DDDD"⟩],
    size := 4, maxLength := 4 }

/-- The 2 by 3 table after `Add("a")`, ..., `Add("f")`. -/
def table23 : Table :=
  { row := 2, col := 3,
    texts := [some ⟨"a"⟩, some ⟨"b"⟩, some ⟨"c"⟩, some ⟨"d"⟩, some ⟨"e"⟩, some ⟨"f"⟩],
    size := 6, maxLength := 1 }

/-- The 3 by 1 table after `Add("a").Add("b").Add("c")`. -/
def table31 : Table :=
  { row := 3, col := 1, texts := [some ⟨"a"⟩, some ⟨"b"⟩, some ⟨"c"⟩], size := 3, maxLength := 1 }

/-- Chained call `NewTable(row, col).Add(d1)...Add(dn)`. -/
def tableScript (row col : Int) (ds : List String) : Except Fault (Table × Returned) :=
  match NewTable row col with
  | .error e => .error e
  | .ok table => .ok (table.AddAll ds)

/-- Table of `row` by `col` in which the cells `pre` have been added and `m`
cells are still nil. -/
def filled (row col : Int) (pre : List String) (m : Nat) : Table :=
  { row := row, col := col,
    texts := pre.map (fun d => some (NewText d)) ++ List.replicate m none,
    size := pre.length, maxLength := maxLen pre }

/-- A cell text of 10000010 bytes. -/
def wideCell : String :=
  strings.Repeat "a" 10000010

/-- The 1 by 1 table after `Add(wideCell)`. -/
def wideTable : Table :=
  { row := 1, col := 1, texts := [some ⟨wideCell⟩], size := 1, maxLength := 10000010 }

/-- The table that `NewTable(1<<32, 1<<32)` returns: the product of the
dimensions wraps to 0, so the storage has no cell. -/
def wrappedTable : Table :=
  { row := 4294967296, col := 4294967296, texts := [], size := 0, maxLength := 0 }

/-! ## Sequences of list and table calls -/

/-- Successive calls `list.AppendNewLi(t1)`, ..., `list.AppendNewLi(tn)` on the
list at address `list`; the result holds the addresses the calls return, in
call order. -/
def MdList.AppendAll (h : Heap) (list : Nat) : List String → Except Fault (Heap × List Nat)
  | [] => .ok (h, [])
  | t :: ts =>
    match MdList.AppendNewLi h list t with
    | .error e => .error e
    | .ok (h, li) =>
      match MdList.AppendAll h list ts with
      | .error e => .error e
      | .ok (h, rest) => .ok (h, li :: rest)

/-- The chain of the items with texts `ts`, none of which owns a child list. -/
def Chain.ofTexts : List String → Chain
  | [] => .nil
  | t :: ts => .li t (Chain.ofTexts ts)

/-- Items with the texts `ts` laid out at the consecutive addresses `a`,
`a+1`, ...: each is linked to the next one, the last one has a nil `next`, and
none has a child list. -/
def segment (a : Nat) : List String → List Li
  | [] => []
  | t :: ts =>
    { child := none, next := if ts = [] then none else some (a + 1), text := some ⟨t⟩ }
      :: segment (a + 1) ts

/-- Heap expected after appending the texts `ts` to the empty list `l` at
address `list` of the heap `h`: the new items follow the old ones, and the
list records the first as head and the last as tail. -/
def appended (h : Heap) (list : Nat) (l : MdList) (ts : List String) : Heap :=
  if ts = [] then h
  else
    { lis := h.lis ++ segment h.lis.length ts,
      lists := h.lists.set list
        { l with head := some h.lis.length, tail := some (h.lis.length + (ts.length - 1)) } }

/-- Heap holding one newly constructed ordered list, at address 0. -/
def freshHeap : Heap :=
  { lis := [], lists := [⟨none, none, some .OrderedList⟩] }

/-- One call of a mutating method of `Table`. -/
inductive TableCall where
  | Add (data : String)
  | AddIgnoreError (data : String)
  | Update (rowIdx colIdx : Int) (data : String)
deriving DecidableEq, Repr

/-- Execution of one call on the table. -/
def Table.call (table : Table) : TableCall → Table × Returned
  | .Add data => table.Add data
  | .AddIgnoreError data => table.AddIgnoreError data
  | .Update rowIdx colIdx data => table.Update rowIdx colIdx data

/-- Execution of a sequence of calls on the same table, each of which returns
normally (its receiver, or nil for `AddIgnoreError` on a full table); `none`
as soon as one call panics. -/
def Table.calls : Table → List TableCall → Option Table
  | table, [] => some table
  | table, c :: cs =>
    match table.call c with
    | (_, .panicked _) => none
    | (table, _) => Table.calls table cs

/-- The 2 by 2 table of `example.go`, after three `Add` calls and `Update(2, 2, ...)`. -/
def table22Updated : Table :=
  { row := 2, col := 2, texts := [some ⟨"A"⟩, some ⟨"BB"⟩, some ⟨"C"⟩, some ⟨"DDDD"⟩],
    size := 3, maxLength := 4 }

/-- The 2 by 2 table after `Add("A").Add("BB").Add("C")`: the fourth cell is nil. -/
def table22Partial : Table :=
  { row := 2, col := 2, texts := [some ⟨"A"⟩, some ⟨"BB"⟩, some ⟨"C"⟩, none],
    size := 3, maxLength := 2 }

/-! ## Further descriptions of list rendering -/

/-- Texts of the items of the chain itself, in append order. -/
def Chain.texts : Chain → List String
  | .nil => []
  | .li t rest => t :: rest.texts
  | .liWith t _ _ rest => t :: rest.texts

/-- Script: an unordered list `a`, `b` whose item `a` owns the ordered list `p`, `q`. -/
def numberedChildScript : Except Fault (Heap × Nat) := do
  let (h, ul) := NewUnOrderedList ⟨[], []⟩
  let (h, ol) := NewOrderedList h
  let (h, a) ← MdList.AppendNewLi h ul "a"
  let (h, _) ← MdList.AppendNewLi h ul "b"
  let (h, _) ← MdList.AppendNewLi h ol "p"
  let (h, _) ← MdList.AppendNewLi h ol "q"
  let h ← Li.AppendList h a (some ol)
  pure (h, ul)

/-- Heap that `numberedChildScript` builds; the unordered parent is at address
0, the ordered child at address 1. -/
def numberedChildHeap : Heap :=
  { lis := [⟨some 1, some 1, some ⟨"a"⟩⟩, ⟨none, none, some ⟨"b"⟩⟩, ⟨none, some 3, some ⟨"p"⟩⟩,
            ⟨none, none, some ⟨"q"⟩⟩],
    lists := [⟨some 0, some 1, some .UnOrderedList⟩, ⟨some 2, some 3, some .OrderedList⟩] }

/-! ## Documents -/

/-- Block: `type Block struct { text *Text }`. -/
structure Block where
  text : Option Text
deriving DecidableEq, Repr

/-- Code: `type Code struct { language string; code *Text }`. -/
structure Code where
  language : String
  code : Option Text
deriving DecidableEq, Repr

/-- Link: `type Link struct { description string; link string }`. -/
structure Link where
  description : String
  link : String
deriving DecidableEq, Repr

/-- A value of the interface `Handler`: one of the node kinds that implement
`Build`.  Headings and lists are given by address, a heading because
`Title.Build` assigns to it (so joining the same heading twice is visible), a
list because it lives in the heap; the other kinds are not changed by `Build`
and are carried by value. -/
inductive Handler where
  | text (tt : Text)
  | title (addr : Nat)
  | table (table : Table)
  | list (addr : Nat)
  | block (bk : Block)
  | code (c : Code)
  | link (lk : Link)
deriving DecidableEq, Repr

/-- Markdown: `type Markdown struct { filename string; buf *bytes.Buffer; handlers []Handler }`. -/
structure Markdown where
  filename : String
  buf : Buffer
  handlers : List Handler
deriving DecidableEq, Repr

/-- New: a document with an empty buffer and no handlers. -/
def New (filename : String) : Markdown :=
  { filename := filename, buf := "", handlers := [] }

/-- NewBlock: `&Block{text: NewText(data)}`. -/
def NewBlock (data : String) : Block :=
  { text := some (NewText data) }

/-- NewCode: a code block without code (`code` is nil). -/
def NewCode (language : String) : Code :=
  { language := language, code := none }

/-- NewCodeWithCodeBlock: a code block carrying `NewText(code)`. -/
def NewCodeWithCodeBlock (language : String) (code : String) : Code :=
  { language := language, code := some (NewText code) }

/-- NewLink: `&Link{description, link}`. -/
def NewLink (description : String) (link : String) : Link :=
  { description := description, link := link }

/-- Join: appends the handlers one by one, in argument order, and returns the
document. -/
def Markdown.Join (md : Markdown) (handlers : List Handler) : Markdown :=
  handlers.foldl (fun md handle => { md with handlers := md.handlers ++ [handle] }) md

/-- Block.Build: the text after `> `, then a blank line. -/
def Block.Build (bk : Block) (buf : Buffer) : Except Fault Buffer :=
  match bk.text with
  | none => .error .nilDereference
  | some text => .ok (newLine (writeLine ("> " ++ text.line) buf))

/-- Code.Build: the fenced block tagged with the language, then a blank line. -/
def Code.Build (c : Code) (buf : Buffer) : Except Fault Buffer :=
  match c.code with
  | none => .error .nilDereference
  | some code =>
    .ok (newLine (WriteString buf ("```" ++ c.language ++ "\r\n" ++ code.line ++ "\r\n```\r\n")))

/-- Link.generateLink: `[description](link)`. -/
def Link.generateLink (lk : Link) : String :=
  "[" ++ lk.description ++ "](" ++ lk.link ++ ")"

/-- Link.Build: the link and CRLF, then a blank line. -/
def Link.Build (lk : Link) (buf : Buffer) : Buffer :=
  newLine (WriteString buf (lk.generateLink ++ "\r\n"))

/-- Call `handler.Build(buf)` through the interface.  The result is the
headings after the call and the buffer. -/
def Handler.Build (fuel : Nat) (h : Heap) (titles : List Title) :
    Handler → Buffer → Except Fault (List Title × Buffer)
  | .text tt, buf => .ok (titles, tt.Build buf)
  | .title addr, buf =>
    match titles[addr]? with
    | none => .error .nilDereference
    | some heading =>
      match heading.Build buf with
      | .error e => .error e
      | .ok (heading, buf) => .ok (titles.set addr heading, buf)
  | .table tb, buf =>
    match tb.Build buf with
    | .error e => .error e
    | .ok buf => .ok (titles, buf)
  | .list addr, buf =>
    match MdList.Build fuel h addr buf with
    | .error e => .error e
    | .ok (_, buf) => .ok (titles, buf)
  | .block bk, buf =>
    match bk.Build buf with
    | .error e => .error e
    | .ok buf => .ok (titles, buf)
  | .code c, buf =>
    match c.Build buf with
    | .error e => .error e
    | .ok buf => .ok (titles, buf)
  | .link lk, buf => .ok (titles, lk.Build buf)

/-- Loop of `Store`: `handler.Build(md.buf)` for every handler in order. -/
def Markdown.buildLoop (fuel : Nat) (h : Heap) :
    List Handler → List Title → Buffer → Except Fault (List Title × Buffer)
  | [], titles, buf => .ok (titles, buf)
  | handler :: rest, titles, buf =>
    match handler.Build fuel h titles buf with
    | .error e => .error e
    | .ok (titles, buf) => Markdown.buildLoop fuel h rest titles buf

/-- Store: builds every handler into `md.buf`, then creates the file and writes
the buffer to it in one operation, which empties the buffer.  `sinkFails`
tells whether creating or writing the file fails.  The result is the headings
and the document after the call, and the bytes written to the file. -/
def Markdown.Store (fuel : Nat) (h : Heap) (titles : List Title) (md : Markdown)
    (sinkFails : Bool) : Except Fault (List Title × Markdown × String) :=
  match Markdown.buildLoop fuel h md.handlers titles md.buf with
  | .error e => .error e
  | .ok (titles, buf) =>
    if sinkFails then .error (.raised "sink failure")
    else .ok (titles, { md with buf := "" }, buf)

/-! ## Lemmas on lists -/

theorem concat_append (xs ys : List String) : concat (xs ++ ys) = concat xs ++ concat ys := by
  induction xs with
  | nil => simp [concat]
  | cons x xs ih => simp [concat, ih, String.append_assoc]

theorem chainAt_li {h : Heap} {p : Nat} {t : String} {rest : Chain}
    (hc : h.chainAt (some p) (.li t rest) = true) :
    ∃ node, h.lis[p]? = some node ∧ node.text = some ⟨t⟩ ∧ node.child = none
      ∧ h.chainAt node.next rest = true := by
  unfold Heap.chainAt at hc
  cases hp : h.lis[p]? with
  | none => simp [hp] at hc
  | some node =>
    simp only [hp, Bool.and_eq_true, beq_iff_eq] at hc
    exact ⟨node, rfl, hc.1.1, hc.1.2, hc.2⟩

theorem chainAt_liWith {h : Heap} {p : Nat} {t : String} {s : Sorter} {c rest : Chain}
    (hc : h.chainAt (some p) (.liWith t s c rest) = true) :
    ∃ node q l, h.lis[p]? = some node ∧ node.text = some ⟨t⟩ ∧ node.child = some q
      ∧ h.lists[q]? = some l ∧ l.sorter = some s ∧ h.chainAt l.head c = true
      ∧ h.chainAt node.next rest = true := by
  unfold Heap.chainAt at hc
  cases hp : h.lis[p]? with
  | none => simp [hp] at hc
  | some node =>
    simp only [hp] at hc
    cases hq : node.child with
    | none => simp [hq] at hc
    | some q =>
      simp only [hq] at hc
      cases hl : h.lists[q]? with
      | none => simp [hl] at hc
      | some l =>
        simp only [hl, Bool.and_eq_true, beq_iff_eq] at hc
        exact ⟨node, q, l, rfl, hc.1.1.1, hq, hl, hc.1.1.2, hc.1.2, hc.2⟩

theorem chainAt_nil {h : Heap} {node : Option Nat} (hc : h.chainAt node .nil = true) :
    node = none := by
  cases node <;> simp [Heap.chainAt] at hc ⊢

theorem walk_renders (c : Chain) : ∀ (s : Sorter) (h : Heap) (node : Option Nat)
    (k d fuel : Nat) (buf : Buffer), h.chainAt node c = true → c.steps ≤ fuel →
    Sorter.walk s fuel h buf node k d = .ok (buf ++ concat (c.lines s k d)) := by
  induction c with
  | nil =>
    intro s h node k d fuel buf hc hf
    have := chainAt_nil hc
    subst this
    obtain ⟨f, rfl⟩ : ∃ f, fuel = f + 1 := ⟨fuel - 1, by simp [Chain.steps] at hf; omega⟩
    cases s <;>
      simp [Sorter.walk, UnOrderedList.walk, OrderedList.walk, Chain.lines, Chain.body, concat,
        newLine, WriteString]
  | li t rest ih =>
    intro s h node k d fuel buf hc hf
    cases node with
    | none => simp [Heap.chainAt] at hc
    | some p =>
      obtain ⟨nd, hp, ht, hch, hrest⟩ := chainAt_li hc
      obtain ⟨f, rfl⟩ : ∃ f, fuel = f + 1 := ⟨fuel - 1, by simp [Chain.steps] at hf; omega⟩
      have hf' : rest.steps ≤ f := by simp [Chain.steps] at hf; omega
      cases s with
      | UnOrderedList =>
        have := ih .UnOrderedList h nd.next (k + 1) d f
          (WriteString buf (strings.Repeat " " (d * 3) ++ "* " ++ t ++ "\r\n")) hrest hf'
        simp only [Sorter.walk] at this ⊢
        simp only [UnOrderedList.walk, hp, ht, hch, this]
        simp [Chain.lines, Chain.body, concat, itemLine, indent, WriteString, String.append_assoc,
          concat_append]
      | OrderedList =>
        have := ih .OrderedList h nd.next (k + 1) d f
          (WriteString buf (strings.Repeat " " (d * 3) ++ toString k ++ ". " ++ t ++ "\r\n"))
          hrest hf'
        simp only [Sorter.walk] at this ⊢
        simp only [OrderedList.walk, hp, ht, hch, this]
        simp [Chain.lines, Chain.body, concat, itemLine, indent, WriteString, String.append_assoc,
          concat_append]
  | liWith t cs c rest ihc ih =>
    intro s h node k d fuel buf hc hf
    cases node with
    | none => simp [Heap.chainAt] at hc
    | some p =>
      obtain ⟨nd, q, l, hp, ht, hch, hl, hs, hchild, hrest⟩ := chainAt_liWith hc
      obtain ⟨f, rfl⟩ : ∃ f, fuel = f + 2 := ⟨fuel - 2, by simp [Chain.steps] at hf; omega⟩
      have hf1 : c.steps ≤ f := by simp [Chain.steps] at hf; omega
      have hf2 : rest.steps ≤ f + 1 := by simp [Chain.steps] at hf; omega
      have hcs : ∀ b, Sorter.createSort (f + 1) h b q (d + 1)
          = .ok (b ++ concat (c.lines cs 1 (d + 1))) := by
        intro b
        have := ihc cs h l.head 1 (d + 1) f b hchild hf1
        cases cs <;> simp only [Sorter.walk] at this <;>
          simp only [Sorter.createSort, hl, hs, this]
      cases s with
      | UnOrderedList =>
        have := ih .UnOrderedList h nd.next (k + 1) d (f + 1)
        simp only [Sorter.walk] at this ⊢
        simp only [UnOrderedList.walk, hp, ht, hch, hcs, this _ hrest hf2]
        simp [Chain.lines, Chain.body, concat, itemLine, indent, WriteString, String.append_assoc,
          concat_append]
      | OrderedList =>
        have := ih .OrderedList h nd.next (k + 1) d (f + 1)
        simp only [Sorter.walk] at this ⊢
        simp only [OrderedList.walk, hp, ht, hch, hcs, this _ hrest hf2]
        simp [Chain.lines, Chain.body, concat, itemLine, indent, WriteString, String.append_assoc,
          concat_append]

theorem createSort_renders {h : Heap} {list : Nat} {l : MdList} {s : Sorter} {c : Chain}
    (hl : h.lists[list]? = some l) (hs : l.sorter = some s) (hc : h.chainAt l.head c = true)
    (fuel d : Nat) (buf : Buffer) (hf : c.steps + 1 ≤ fuel) :
    Sorter.createSort fuel h buf list d = .ok (buf ++ concat (c.lines s 1 d)) := by
  obtain ⟨f, rfl⟩ : ∃ f, fuel = f + 1 := ⟨fuel - 1, by omega⟩
  have := walk_renders c s h l.head 1 d f buf hc (by omega)
  cases s <;> simp only [Sorter.walk] at this <;> simp only [Sorter.createSort, hl, hs, this]

theorem build_renders {h : Heap} {list : Nat} {l : MdList} {s : Sorter} {c : Chain}
    (hl : h.lists[list]? = some l) (hs : l.sorter = some s) (hc : h.chainAt l.head c = true)
    (fuel : Nat) (buf : Buffer) (hf : c.steps + 1 ≤ fuel) :
    MdList.Build fuel h list buf = .ok (h, buf ++ concat (c.lines s 1 0)) := by
  simp only [MdList.Build, createSort_renders hl hs hc fuel 0 buf hf]

theorem body_length (c : Chain) : ∀ (s : Sorter) (k d : Nat),
    (c.body s k d).length = c.itemCount + c.childLists := by
  induction c with
  | nil => intro s k d; simp [Chain.body, Chain.itemCount, Chain.childLists]
  | li t rest ih => intro s k d; simp [Chain.body, Chain.itemCount, Chain.childLists, ih]; omega
  | liWith t cs c rest ihc ih =>
    intro s k d
    simp [Chain.body, Chain.itemCount, Chain.childLists, ih, ihc]; omega

theorem ownLines_sublist_body (c : Chain) : ∀ (s : Sorter) (k d : Nat),
    (c.ownLines s k d).Sublist (c.body s k d) := by
  induction c with
  | nil => intro s k d; simp [Chain.body, Chain.ownLines]
  | li t rest ih => intro s k d; simpa [Chain.body, Chain.ownLines] using ih s (k + 1) d
  | liWith t cs c rest _ ih =>
    intro s k d
    simp only [Chain.body, Chain.ownLines, List.cons_sublist_cons]
    exact List.Sublist.trans (ih s (k + 1) d) (List.sublist_append_right _ _)

theorem body_of_flat (c : Chain) : ∀ (s : Sorter) (k d : Nat), c.flat = true →
    c.body s k d = c.ownLines s k d := by
  induction c with
  | nil => intro s k d _; simp [Chain.body, Chain.ownLines]
  | li t rest ih => intro s k d hf; simp [Chain.body, Chain.ownLines, ih s (k + 1) d hf]
  | liWith t cs c rest _ _ => intro s k d hf; simp [Chain.flat] at hf

theorem ownLines_length (c : Chain) : ∀ (s : Sorter) (k d : Nat),
    (c.ownLines s k d).length = c.length := by
  induction c with
  | nil => intro s k d; simp [Chain.ownLines, Chain.length]
  | li t rest ih => intro s k d; simp [Chain.ownLines, Chain.length, ih]
  | liWith t cs c rest _ ih => intro s k d; simp [Chain.ownLines, Chain.length, ih]

theorem body_append (a b : Chain) : ∀ (s : Sorter) (k d : Nat),
    (a.append b).body s k d = a.body s k d ++ b.body s (k + a.length) d := by
  induction a with
  | nil => intro s k d; simp [Chain.append, Chain.body, Chain.length]
  | li t rest ih =>
    intro s k d
    simp [Chain.append, Chain.body, Chain.length, ih, Nat.add_assoc, Nat.add_comm 1]
  | liWith t cs c rest _ ih =>
    intro s k d
    simp [Chain.append, Chain.body, Chain.length, ih, Nat.add_assoc, Nat.add_comm 1]

theorem steps_append (a b : Chain) : (a.append b).steps + 1 = a.steps + b.steps := by
  induction a with
  | nil => simp [Chain.append, Chain.steps]; omega
  | li t rest ih => simp [Chain.append, Chain.steps]; omega
  | liWith t cs c rest _ ih => simp [Chain.append, Chain.steps]; omega

theorem repeat_data (n : Nat) : (strings.Repeat " " n).data = List.replicate n ' ' := by
  induction n with
  | zero => rfl
  | succ n ih => simp [strings.Repeat, ih, List.replicate_succ]

theorem indent_starts_itemLine (s : Sorter) (k : Nat) (t : String) (d e : Nat) (hde : d ≤ e) :
    (indent d).data <+: (itemLine s k e t).data := by
  have hrep : List.replicate (d * 3) ' ' <+: List.replicate (e * 3) ' ' := by
    refine ⟨List.replicate (e * 3 - d * 3) ' ', ?_⟩
    rw [← List.replicate_add]
    congr 1
    omega
  cases s <;> simp only [itemLine, indent, String.data_append, repeat_data, List.append_assoc] <;>
    exact List.IsPrefix.trans hrep (List.prefix_append _ _)

theorem body_indented (c : Chain) : ∀ (s : Sorter) (k d e : Nat), d ≤ e →
    ∀ ln ∈ c.body s k e, ln = "\r\n" ∨ (indent d).data <+: ln.data := by
  induction c with
  | nil => intro s k d e _ ln hln; simp [Chain.body] at hln
  | li t rest ih =>
    intro s k d e hde ln hln
    simp only [Chain.body, List.mem_cons] at hln
    rcases hln with rfl | hln
    · exact Or.inr (indent_starts_itemLine s k t d e hde)
    · exact ih s (k + 1) d e hde ln hln
  | liWith t cs c rest ihc ih =>
    intro s k d e hde ln hln
    simp only [Chain.body, List.mem_cons, List.mem_append, List.mem_singleton,
      List.not_mem_nil, or_false] at hln
    rcases hln with rfl | (hln | rfl) | hln
    · exact Or.inr (indent_starts_itemLine s k t d e hde)
    · exact ihc cs 1 d (e + 1) (by omega) ln hln
    · exact Or.inl rfl
    · exact ih s (k + 1) d e hde ln hln

theorem splitCRLF_scan (x : List Char) : ∀ (rest cur : List Char) (b : Bool),
    crlfFree b x = true →
    splitCRLF (x ++ '\r' :: '\n' :: rest) cur b
      = (cur ++ x ++ ['\r', '\n']) :: splitCRLF rest [] false := by
  induction x with
  | nil =>
    intro rest cur b _
    cases b <;> simp [splitCRLF]
  | cons c x ih =>
    intro rest cur b hfree
    simp only [crlfFree, Bool.and_eq_true, Bool.not_eq_true'] at hfree
    have h := ih rest (cur ++ [c]) (c == '\r') hfree.2
    rw [List.cons_append, splitCRLF, hfree.1]
    simpa using h

theorem crlfFree_append_plain (a : List Char) (hplain : ∀ c ∈ a, c ≠ '\r' ∧ c ≠ '\n') :
    ∀ (t : List Char), crlfFree false t = true → crlfFree false (a ++ t) = true := by
  induction a with
  | nil => intro t ht; simpa using ht
  | cons c a ih =>
    intro t ht
    have hc := hplain c (List.mem_cons_self _ _)
    have hcr : (c == '\r') = false := by simpa using hc.1
    simp only [List.cons_append, crlfFree, Bool.false_and, Bool.not_false, Bool.true_and, hcr]
    exact ih (fun c' hc' => hplain c' (List.mem_cons_of_mem _ hc')) t ht

/-- A chunk is one line: a text without CRLF followed by CRLF. -/
theorem splitCRLF_chunks (chunks : List String)
    (hline : ∀ ln ∈ chunks, ∃ y : String, ln = y ++ "\r\n" ∧ noCRLF y = true) :
    splitCRLF (concat chunks).data [] false = chunks.map String.data := by
  induction chunks with
  | nil => simp [concat, splitCRLF]
  | cons ln chunks ih =>
    obtain ⟨y, rfl, hy⟩ := hline _ (List.mem_cons_self _ _)
    have hrest := ih (fun l hl => hline l (List.mem_cons_of_mem _ hl))
    have hdata : (concat ((y ++ "\r\n") :: chunks)).data
        = y.data ++ '\r' :: '\n' :: (concat chunks).data := by
      simp [concat, String.data_append]
    rw [hdata, splitCRLF_scan y.data _ [] false hy, hrest]
    simp [String.data_append]

theorem outputLines_chunks (chunks : List String)
    (hline : ∀ ln ∈ chunks, ∃ y : String, ln = y ++ "\r\n" ∧ noCRLF y = true) :
    outputLines (concat chunks) = chunks := by
  simp only [outputLines, splitCRLF_chunks chunks hline, List.map_map]
  exact List.map_id'' (fun _ => rfl) chunks

theorem digitChar_plain : ∀ m, m < 10 → Nat.digitChar m ≠ '\r' ∧ Nat.digitChar m ≠ '\n' := by
  decide

theorem toDigitsCore_plain : ∀ (fuel n : Nat) (ds : List Char),
    (∀ c ∈ ds, c ≠ '\r' ∧ c ≠ '\n') →
    ∀ c ∈ Nat.toDigitsCore 10 fuel n ds, c ≠ '\r' ∧ c ≠ '\n' := by
  intro fuel
  induction fuel with
  | zero => intro n ds hds; simpa [Nat.toDigitsCore] using hds
  | succ fuel ih =>
    intro n ds hds
    have hd : ∀ c ∈ Nat.digitChar (n % 10) :: ds, c ≠ '\r' ∧ c ≠ '\n' := by
      intro c hc
      rcases List.mem_cons.mp hc with rfl | hc
      · exact digitChar_plain (n % 10) (Nat.mod_lt n (by decide))
      · exact hds c hc
    simp only [Nat.toDigitsCore]
    split
    · exact hd
    · exact ih (n / 10) _ hd

theorem toString_plain (k : Nat) : ∀ c ∈ (toString k).data, c ≠ '\r' ∧ c ≠ '\n' := by
  show ∀ c ∈ Nat.toDigitsCore 10 (k + 1) k [], c ≠ '\r' ∧ c ≠ '\n'
  exact toDigitsCore_plain (k + 1) k [] (by simp)

theorem indent_plain (d : Nat) : ∀ c ∈ (indent d).data, c ≠ '\r' ∧ c ≠ '\n' := by
  intro c hc
  rw [indent, repeat_data] at hc
  rw [List.eq_of_mem_replicate hc]
  decide

/-- The line of an item whose text holds no CRLF is one CRLF-terminated line. -/
theorem itemLine_line (s : Sorter) (k d : Nat) (t : String) (ht : noCRLF t = true) :
    ∃ y : String, itemLine s k d t = y ++ "\r\n" ∧ noCRLF y = true := by
  cases s with
  | OrderedList =>
    refine ⟨indent d ++ toString k ++ ". " ++ t, rfl, ?_⟩
    simp only [noCRLF, String.data_append, List.append_assoc]
    refine crlfFree_append_plain _ (indent_plain d) _ ?_
    refine crlfFree_append_plain _ (toString_plain k) _ ?_
    exact crlfFree_append_plain _ (by decide) _ ht
  | UnOrderedList =>
    refine ⟨indent d ++ "* " ++ t, rfl, ?_⟩
    simp only [noCRLF, String.data_append, List.append_assoc]
    refine crlfFree_append_plain _ (indent_plain d) _ ?_
    exact crlfFree_append_plain _ (by decide) _ ht

theorem body_lines (c : Chain) : ∀ (s : Sorter) (k d : Nat), c.plain = true →
    ∀ ln ∈ c.body s k d, ∃ y : String, ln = y ++ "\r\n" ∧ noCRLF y = true := by
  induction c with
  | nil => intro s k d _ ln hln; simp [Chain.body] at hln
  | li t rest ih =>
    intro s k d hp ln hln
    simp only [Chain.plain, Bool.and_eq_true] at hp
    simp only [Chain.body, List.mem_cons] at hln
    rcases hln with rfl | hln
    · exact itemLine_line s k d t hp.1
    · exact ih s (k + 1) d hp.2 ln hln
  | liWith t cs c rest ihc ih =>
    intro s k d hp ln hln
    simp only [Chain.plain, Bool.and_eq_true] at hp
    simp only [Chain.body, List.mem_cons, List.mem_append, List.mem_singleton,
      List.not_mem_nil, or_false] at hln
    rcases hln with rfl | (hln | rfl) | hln
    · exact itemLine_line s k d t hp.1.1
    · exact ihc cs 1 (d + 1) hp.1.2 ln hln
    · exact ⟨"", rfl, rfl⟩
    · exact ih s (k + 1) d hp.2 ln hln

/-- The output of a list whose item texts hold no CRLF, cut at its CRLFs, is
the list of the lines written. -/
theorem outputLines_lines (c : Chain) (s : Sorter) (k d : Nat) (hp : c.plain = true) :
    outputLines (concat (c.lines s k d)) = c.lines s k d := by
  apply outputLines_chunks
  intro ln hln
  simp only [Chain.lines, List.mem_append, List.mem_singleton] at hln
  rcases hln with hln | rfl
  · exact body_lines c s k d hp ln hln
  · exact ⟨"", rfl, rfl⟩

theorem lines_starts (c : Chain) (s : Sorter) (k d : Nat) :
    ∃ tail, concat (c.lines s k d)
      = ((c.firstText.map (itemLine s k d)).getD "\r\n") ++ tail := by
  cases c with
  | nil => exact ⟨"", by simp [Chain.lines, Chain.body, Chain.firstText, concat]⟩
  | li t rest =>
    exact ⟨concat (rest.body s (k + 1) d ++ ["\r\n"]), by
      simp [Chain.lines, Chain.body, Chain.firstText, concat]⟩
  | liWith t cs c rest =>
    exact ⟨concat ((c.body cs 1 (d + 1) ++ ["\r\n"]) ++ rest.body s (k + 1) d ++ ["\r\n"]), by
      simp [Chain.lines, Chain.body, Chain.firstText, concat]⟩

/-! ## Theorems on list rendering -/

/-- C1 (as amended): lines written by `List.Build` for a non-empty list whose
item texts hold no CRLF.  With enough fuel the call returns, leaves the heap
unchanged and appends the bytes `concat (c.lines s 1 0)`.  Cut at its CRLFs,
this output consists of the line of each item, followed at once by the
complete rendering of the item's child list when it owns one, and one final
blank line: it has one line per item of the whole tree plus one blank line per
list of the tree (the list itself and every attached child list), its last
line is blank, the lines of the list's own items (one per item) occur in it in
append order, and when no item owns a child list it is exactly one line per
item plus one trailing blank line. -/
theorem C1_build_lines (h : Heap) (list : Nat) (l : MdList) (s : Sorter) (c : Chain)
    (buf : Buffer) (fuel : Nat) (hl : h.lists[list]? = some l) (hs : l.sorter = some s)
    (hc : h.chainAt l.head c = true) (hne : c ≠ .nil) (hf : c.steps + 1 ≤ fuel)
    (hplain : c.plain = true) :
    MdList.Build fuel h list buf = .ok (h, buf ++ concat (c.lines s 1 0))
      ∧ outputLines (concat (c.lines s 1 0)) = c.body s 1 0 ++ ["\r\n"]
      ∧ (outputLines (concat (c.lines s 1 0))).length = c.itemCount + (c.childLists + 1)
      ∧ (outputLines (concat (c.lines s 1 0))).getLast? = some "\r\n"
      ∧ (c.ownLines s 1 0).Sublist (outputLines (concat (c.lines s 1 0)))
      ∧ (c.ownLines s 1 0).length = c.length ∧ 0 < c.length
      ∧ (c.flat = true → outputLines (concat (c.lines s 1 0)) = c.ownLines s 1 0 ++ ["\r\n"]) := by
  rw [outputLines_lines c s 1 0 hplain]
  refine ⟨build_renders hl hs hc fuel buf hf, rfl, ?_, ?_, ?_, ownLines_length c s 1 0, ?_, ?_⟩
  · simp [Chain.lines, body_length]; omega
  · simp [Chain.lines]
  · exact List.Sublist.trans (ownLines_sublist_body c s 1 0) (List.sublist_append_left _ _)
  · cases c <;> simp [Chain.length] at hne ⊢
  · intro hflat
    simp [Chain.lines, body_of_flat c s 1 0 hflat]

/-- C1, witness: the unordered list built by `AppendNewLi("a")` then
`AppendNewLi("b")` renders as `"* a\r\n* b\r\n\r\n"`, which is the three lines
`* a`, `* b` and a blank line. -/
theorem C1_build_lines_witness :
    flatScript = .ok (flatHeap, 0)
      ∧ flatHeap.chainAt (some 0) (.li "a" (.li "b" .nil)) = true
      ∧ Chain.plain (.li "a" (.li "b" .nil)) = true
      ∧ MdList.Build 4 flatHeap 0 "" = .ok (flatHeap, "* a\r\n* b\r\n\r\n")
      ∧ outputLines "* a\r\n* b\r\n\r\n" = ["* a\r\n", "* b\r\n", "\r\n"] :=
  ⟨by decide, by decide, by decide,
    (C1_build_lines flatHeap 0 ⟨some 0, some 1, some .UnOrderedList⟩ .UnOrderedList
      (.li "a" (.li "b" .nil)) "" 4 rfl rfl (by decide) (by decide) (by decide) (by decide)).1,
    by decide⟩

/-- C1, counterexample: an unordered list with the single item `a`, which owns
an unordered child list with the single item `b`.  The two item lines are
followed by two blank lines (the child's and the parent's), not by exactly one. -/
theorem C1_counterexample :
    nestedScript = .ok (nestedHeap, 0)
      ∧ MdList.Build 5 nestedHeap 0 "" = .ok (nestedHeap, "* a\r\n   * b\r\n\r\n\r\n")
      ∧ MdList.Build 5 nestedHeap 0 "" ≠ .ok (nestedHeap, "* a\r\n   * b\r\n" ++ "\r\n") := by
  decide

/-- An item text is written verbatim: the list with the single item `a CRLF b`
renders as the three lines `* a`, `b` and a blank line, two lines for one
item, the second one without marker. -/
theorem crlf_text_two_lines :
    crlfScript = .ok (crlfHeap, 0)
      ∧ crlfHeap.chainAt (some 0) (.li "a\r\nb" .nil) = true
      ∧ Chain.plain (.li "a\r\nb" .nil) = false
      ∧ MdList.Build 3 crlfHeap 0 "" = .ok (crlfHeap, "* a\r\nb\r\n\r\n")
      ∧ outputLines "* a\r\nb\r\n\r\n" = ["* a\r\n", "b\r\n", "\r\n"] := by
  decide

theorem chainAt_liWith_intro {h : Heap} {p q : Nat} {node : Li} {l : MdList} {t : String}
    {s : Sorter} {c rest : Chain} (hp : h.lis[p]? = some node) (ht : node.text = some ⟨t⟩)
    (hq : node.child = some q) (hl : h.lists[q]? = some l) (hs : l.sorter = some s)
    (hc : h.chainAt l.head c = true) (hrest : h.chainAt node.next rest = true) :
    h.chainAt (some p) (.liWith t s c rest) = true := by
  simp [Heap.chainAt, hp, ht, hq, hl, hs, hc, hrest]

theorem lines_liWith (t : String) (cs : Sorter) (c rest : Chain) (s : Sorter) (k d : Nat) :
    (Chain.liWith t cs c rest).lines s k d
      = itemLine s k d t :: (c.lines cs 1 (d + 1) ++ rest.lines s (k + 1) d) := by
  simp [Chain.lines, Chain.body]

/-- C2 (as amended): depth-first rendering.  When the list rendered at depth
`d` consists of the items `pre`, then an item with text `t` owning the child
list `c`, then the items `post`, and no item text of `c` or of its descendants
holds a CRLF, its output is: the lines of `pre`, the line of the item, at once
the complete rendering of the child at depth `d+1` (all lines of the child and
of its descendants, ending with the child's blank line), and only then the
output of `post`, which begins with the line of the next sibling, or is the
parent's trailing blank line when there is none.  Every line of the output
written for the child and its descendants is either the blank line that ends
one of these lists or begins with `(d+1)*3` spaces, and the lines of the
child's own items, which are indented by exactly `(d+1)*3` spaces before the
marker, occur among them in append order. -/
theorem C2_depth_first (h : Heap) (list : Nat) (l : MdList) (s cs : Sorter)
    (pre c post : Chain) (t : String) (buf : Buffer) (fuel d : Nat)
    (hl : h.lists[list]? = some l) (hs : l.sorter = some s)
    (hc : h.chainAt l.head (pre.append (.liWith t cs c post)) = true)
    (hf : pre.steps + c.steps + post.steps + 2 ≤ fuel) (hplain : c.plain = true) :
    Sorter.createSort fuel h buf list d
        = .ok (buf ++ concat (pre.body s 1 d) ++ itemLine s (pre.length + 1) d t
            ++ concat (c.lines cs 1 (d + 1)) ++ concat (post.lines s (pre.length + 2) d))
      ∧ (∃ tail, concat (post.lines s (pre.length + 2) d)
          = ((post.firstText.map (itemLine s (pre.length + 2) d)).getD "\r\n") ++ tail)
      ∧ outputLines (concat (c.lines cs 1 (d + 1))) = c.body cs 1 (d + 1) ++ ["\r\n"]
      ∧ (∀ ln ∈ outputLines (concat (c.lines cs 1 (d + 1))),
          ln = "\r\n" ∨ (indent (d + 1)).data <+: ln.data)
      ∧ (c.ownLines cs 1 (d + 1)).Sublist (outputLines (concat (c.lines cs 1 (d + 1)))) := by
  rw [outputLines_lines c cs 1 (d + 1) hplain]
  refine ⟨?_, lines_starts post s _ d, rfl, ?_, ?_⟩
  · have hst := steps_append pre (.liWith t cs c post)
    rw [createSort_renders hl hs hc fuel d buf (by simp [Chain.steps] at hst; omega)]
    simp [Chain.lines, body_append, Chain.body, concat_append, concat, String.append_assoc,
      Nat.add_comm 1, Nat.add_assoc]
  · intro ln hln
    simp only [Chain.lines, List.mem_append, List.mem_singleton] at hln
    rcases hln with hln | rfl
    · exact body_indented c cs 1 (d + 1) (d + 1) (Nat.le_refl _) ln hln
    · exact Or.inl rfl
  · exact List.Sublist.trans (ownLines_sublist_body c cs 1 (d + 1))
      (List.sublist_append_left _ _)

/-- C2, witness: the ordered list `x`, `y`, `z` whose item `y` owns the
unordered list `p`, `q`. -/
theorem C2_depth_first_witness :
    mixedScript = .ok (mixedHeap, 0)
      ∧ mixedHeap.chainAt (some 0) ((Chain.li "x" .nil).append
          (.liWith "y" .UnOrderedList (.li "p" (.li "q" .nil)) (.li "z" .nil))) = true
      ∧ Chain.plain (.li "p" (.li "q" .nil)) = true
      ∧ Sorter.createSort 9 mixedHeap "" 0 0
          = .ok ("" ++ "1. x\r\n" ++ "2. y\r\n" ++ "   * p\r\n   * q\r\n\r\n" ++ "3. z\r\n\r\n")
      ∧ outputLines "   * p\r\n   * q\r\n\r\n" = ["   * p\r\n", "   * q\r\n", "\r\n"] :=
  ⟨by decide, by decide, by decide,
    (C2_depth_first mixedHeap 0 ⟨some 0, some 4, some .OrderedList⟩ .OrderedList .UnOrderedList
      (.li "x" .nil) (.li "p" (.li "q" .nil)) (.li "z" .nil) "y" "" 9 0 rfl rfl (by decide)
      (by decide) (by decide)).1,
    by decide⟩

/-- C2, counterexample: three unordered lists nested in each other, with the
items `a`, `b` and `c`, rendered at depth 0.  The child list of `a`, rendered
at depth 1, writes four lines between the line of `a` and the parent's blank
line: the line of `b` with 3 spaces, the line of its descendant `c` with 6
spaces, and two empty lines, which do not begin with three spaces. -/
theorem C2_counterexample :
    deepScript = .ok (deepHeap, 0)
      ∧ MdList.Build 7 deepHeap 0 ""
          = .ok (deepHeap, "* a\r\n" ++ ("   * b\r\n" ++ "      * c\r\n" ++ "\r\n" ++ "\r\n") ++ "\r\n")
      ∧ Sorter.createSort 6 deepHeap "" 1 1
          = .ok ("   * b\r\n" ++ "      * c\r\n" ++ "\r\n" ++ "\r\n")
      ∧ ¬ ((indent 1).data <+: "\r\n".data)
      ∧ ¬ ((indent 1 ++ "* ").data <+: "      * c\r\n".data) := by
  decide

/-- C3: ordered numbering restarts in every list.  For an ordered list with
first item `t`, wherever it is rendered (any depth, any buffer content written
before), the first line it writes is numbered `1.`; and when it is the child
of an item, whatever the sorter of the parent and whatever the value `k` of the
parent's counter at that item, the line that follows the parent item's line is
the child's line numbered `1.`. -/
theorem C3_ordered_numbering_restarts (h : Heap) (list : Nat) (l : MdList) (c : Chain)
    (t : String) (hl : h.lists[list]? = some l) (hs : l.sorter = some .OrderedList)
    (hc : h.chainAt l.head c = true) (ht : c.firstText = some t) :
    (∀ (fuel d : Nat) (buf : Buffer), c.steps + 1 ≤ fuel →
      Sorter.createSort fuel h buf list d
        = .ok (buf ++ (indent d ++ "1. " ++ t ++ "\r\n")
            ++ concat (c.lines .OrderedList 1 d).tail))
    ∧ (∀ (s : Sorter) (p : Nat) (node : Li) (tp : String) (post : Chain) (fuel k d : Nat)
        (buf : Buffer), h.lis[p]? = some node → node.child = some list →
        node.text = some ⟨tp⟩ → h.chainAt node.next post = true →
        c.steps + post.steps + 2 ≤ fuel →
        Sorter.walk s fuel h buf (some p) k d
          = .ok (buf ++ itemLine s k d tp ++ (indent (d + 1) ++ "1. " ++ t ++ "\r\n")
              ++ concat (c.lines .OrderedList 1 (d + 1)).tail
              ++ concat (post.lines s (k + 1) d))) := by
  have hbody : ∀ d, ∃ tl, c.lines .OrderedList 1 d = (indent d ++ "1. " ++ t ++ "\r\n") :: tl := by
    intro d
    have hone : ∀ x : String, indent d ++ toString 1 ++ ". " ++ x = indent d ++ "1. " ++ x := by
      intro x
      rw [String.append_assoc (indent d), show toString 1 ++ ". " = "1. " from by decide]
    cases c with
    | nil => simp [Chain.firstText] at ht
    | li t' rest =>
      simp only [Chain.firstText, Option.some.injEq] at ht
      subst ht
      exact ⟨_, by simp only [Chain.lines, Chain.body, itemLine, hone, List.cons_append]; rfl⟩
    | liWith t' cs c' rest =>
      simp only [Chain.firstText, Option.some.injEq] at ht
      subst ht
      exact ⟨_, by simp only [Chain.lines, Chain.body, itemLine, hone, List.cons_append]; rfl⟩
  constructor
  · intro fuel d buf hf
    obtain ⟨tl, htl⟩ := hbody d
    rw [createSort_renders hl hs hc fuel d buf hf, htl]
    simp [concat, String.append_assoc]
  · intro s p node tp post fuel k d buf hp hq htp hpost hf
    obtain ⟨tl, htl⟩ := hbody (d + 1)
    have hch := chainAt_liWith_intro hp htp hq hl hs hc hpost
    rw [walk_renders _ s h (some p) k d fuel buf hch (by simp [Chain.steps]; omega),
      lines_liWith, htl, List.cons_append]
    simp only [concat, concat_append, String.append_assoc, List.tail_cons]

/-- C3, witness: the ordered list `x`, `y`, `z` whose second item `y` owns the
ordered list `p`, `q`.  Rendered on its own the child starts with `1. p`, and
in the parent's loop, entered at `y` with the counter at 2, the line `2. y` is
followed by the child's line `1. p`. -/
theorem C3_ordered_numbering_restarts_witness :
    orderedNestedScript = .ok (orderedNestedHeap, 0)
      ∧ orderedNestedHeap.chainAt (some 2) (.li "p" (.li "q" .nil)) = true
      ∧ Sorter.createSort 4 orderedNestedHeap "" 1 0
          = .ok ("" ++ ("" ++ "1. " ++ "p" ++ "\r\n") ++ "2. q\r\n\r\n")
      ∧ Sorter.walk .OrderedList 8 orderedNestedHeap "" (some 1) 2 0
          = .ok ("" ++ "2. y\r\n" ++ ("   " ++ "1. " ++ "p" ++ "\r\n") ++ "   2. q\r\n\r\n"
              ++ "3. z\r\n\r\n") :=
  ⟨by decide, by decide,
    (C3_ordered_numbering_restarts orderedNestedHeap 1 ⟨some 2, some 3, some .OrderedList⟩
      (.li "p" (.li "q" .nil)) "p" rfl rfl (by decide) rfl).1 4 0 "" (by decide),
    (C3_ordered_numbering_restarts orderedNestedHeap 1 ⟨some 2, some 3, some .OrderedList⟩
      (.li "p" (.li "q" .nil)) "p" rfl rfl (by decide) rfl).2 .OrderedList 1
      ⟨some 1, some 4, some ⟨"y"⟩⟩ "y" (.li "z" .nil) 8 2 0 "" rfl rfl rfl (by decide)
      (by decide)⟩

/-- C4: rendering a list is idempotent and read-only.  Two successive calls of
`List.Build` on the same list both return, each appends the same text (the
lines of the list) to the buffer, and each leaves the heap (all items, texts,
next links and child lists) as it was. -/
theorem C4_build_idempotent (h : Heap) (list : Nat) (l : MdList) (s : Sorter) (c : Chain)
    (buf : Buffer) (fuel : Nat) (hl : h.lists[list]? = some l) (hs : l.sorter = some s)
    (hc : h.chainAt l.head c = true) (hf : c.steps + 1 ≤ fuel) :
    MdList.Build fuel h list buf = .ok (h, buf ++ concat (c.lines s 1 0))
      ∧ MdList.Build fuel h list (buf ++ concat (c.lines s 1 0))
          = .ok (h, buf ++ concat (c.lines s 1 0) ++ concat (c.lines s 1 0)) :=
  ⟨build_renders hl hs hc fuel buf hf, build_renders hl hs hc fuel _ hf⟩

/-- C4, witness: the ordered list `x`, `y`, `z` whose item `y` owns the
unordered list `p`, `q`, built twice after the text `doc`. -/
theorem C4_build_idempotent_witness :
    mixedHeap.chainAt (some 0)
        (.li "x" (.liWith "y" .UnOrderedList (.li "p" (.li "q" .nil)) (.li "z" .nil))) = true
      ∧ MdList.Build 9 mixedHeap 0 "doc"
          = .ok (mixedHeap, "doc" ++ "1. x\r\n2. y\r\n   * p\r\n   * q\r\n\r\n3. z\r\n\r\n")
      ∧ MdList.Build 9 mixedHeap 0 ("doc" ++ "1. x\r\n2. y\r\n   * p\r\n   * q\r\n\r\n3. z\r\n\r\n")
          = .ok (mixedHeap, "doc" ++ "1. x\r\n2. y\r\n   * p\r\n   * q\r\n\r\n3. z\r\n\r\n"
              ++ "1. x\r\n2. y\r\n   * p\r\n   * q\r\n\r\n3. z\r\n\r\n") :=
  ⟨by decide,
    C4_build_idempotent mixedHeap 0 ⟨some 0, some 4, some .OrderedList⟩ .OrderedList
      (.li "x" (.liWith "y" .UnOrderedList (.li "p" (.li "q" .nil)) (.li "z" .nil))) "doc" 9
      rfl rfl (by decide) (by decide)⟩

/-! ## Lemmas on tables -/

theorem maxLen_append_singleton (pre : List String) (d : String) :
    maxLen (pre ++ [d]) = max (maxLen pre) d.utf8ByteSize := by
  induction pre with
  | nil => simp [maxLen]
  | cons x xs ih => simp [maxLen, ih, Nat.max_assoc]

theorem set_length_append {α : Type} (xs : List α) (y v : α) (ys : List α) :
    (xs ++ y :: ys).set xs.length v = xs ++ v :: ys := by
  induction xs with
  | nil => rfl
  | cons x xs ih => simp [List.set, ih]

theorem add_filled (row col : Int) (pre : List String) (m : Nat) (d : String)
    (hcap : row * col = (pre.length : Int) + ((m : Int) + 1)) :
    (filled row col pre (m + 1)).Add d = (filled row col (pre ++ [d]) m, .receiver) := by
  have hlt : ¬ ((pre.length : Int) ≥ row * col) := by omega
  have hstore : storeAt (pre.map (fun d => some (NewText d)) ++ List.replicate (m + 1) none)
      (pre.length : Int) (some (NewText d))
      = some ((pre ++ [d]).map (fun d => some (NewText d)) ++ List.replicate m none) := by
    have hlen : ((pre.map (fun d => some (NewText d))).length) = pre.length := by simp
    simp only [storeAt, List.length_append, List.length_map, List.length_replicate,
      Int.toNat_ofNat]
    rw [if_pos (by constructor <;> omega)]
    rw [List.replicate_succ]
    conv_lhs => rw [← hlen]
    rw [set_length_append]
    simp
  unfold Table.Add
  simp only [filled, hlt, if_false]
  by_cases hgt : (d.utf8ByteSize : Int) > (maxLen pre : Int)
  · simp only [hgt, if_true, hstore]
    simp only [maxLen_append_singleton, List.length_append, List.length_singleton]
    have : maxLen pre ≤ d.utf8ByteSize := by omega
    simp [Nat.max_eq_right this]
  · simp only [hgt, if_false, hstore]
    simp only [maxLen_append_singleton, List.length_append, List.length_singleton]
    have : d.utf8ByteSize ≤ maxLen pre := by omega
    simp [Nat.max_eq_left this]

theorem addAll_filled (row col : Int) (ds : List String) : ∀ (pre : List String) (m : Nat),
    row * col = (pre.length : Int) + ((ds.length : Int) + m) →
    (filled row col pre (ds.length + m)).AddAll ds = (filled row col (pre ++ ds) m, .receiver) := by
  induction ds with
  | nil => intro pre m _; simp [Table.AddAll]
  | cons d ds ih =>
    intro pre m hcap
    have h1 : (d :: ds).length + m = (ds.length + m) + 1 := by simp; omega
    rw [h1]
    simp only [Table.AddAll]
    rw [add_filled row col pre (ds.length + m) d (by simp at hcap; push_cast; omega)]
    simp only
    rw [ih (pre ++ [d]) m (by simp at hcap ⊢; omega)]
    simp

theorem repeat_eq_concat (x : String) (n : Nat) :
    strings.Repeat x n = concat (List.replicate n x) := by
  induction n with
  | zero => rfl
  | succ n ih => simp [strings.Repeat, List.replicate_succ, concat, ih]

theorem writeCell_set (table : Table) (pre : List String) (rest : List (Option Text))
    (htexts : table.texts = pre.map (fun d => some (NewText d)) ++ rest) (buf : Buffer) (n : Nat)
    (hn : n < pre.length) :
    table.writeCell buf (n : Int) = .ok (buf ++ table.format (pre[n])) := by
  have hget : table.texts[n]? = some (some (NewText pre[n])) := by
    rw [htexts, List.getElem?_append_left (by simpa using hn)]
    simp [List.getElem?_eq_getElem, hn]
  have hlen : n < table.texts.length := by
    rw [htexts]
    simp
    omega
  unfold Table.writeCell
  rw [if_pos (by constructor <;> omega)]
  simp [hget, WriteString, NewText]

theorem writeCell_unset (table : Table) (pre : List String) (rest : List (Option Text))
    (htexts : table.texts = pre.map (fun d => some (NewText d)) ++ none :: rest) (buf : Buffer) :
    table.writeCell buf (pre.length : Int) = .error .nilDereference := by
  have hget : table.texts[pre.length]? = some none := by
    rw [htexts, List.getElem?_append_right (by simp)]
    simp
  have hlen : pre.length < table.texts.length := by
    rw [htexts]
    simp
  unfold Table.writeCell
  rw [if_pos (by constructor <;> omega)]
  simp [hget]

theorem cellLoop_set (table : Table) (pre : List String) (rest : List (Option Text))
    (htexts : table.texts = pre.map (fun d => some (NewText d)) ++ rest) (b : Nat) :
    ∀ (n k : Nat) (buf : Buffer), b + k + n ≤ pre.length →
    table.cellLoop (b : Int) n (k : Int) buf
      = .ok (buf ++ concat (((pre.drop (b + k)).take n).map table.format)) := by
  intro n
  induction n with
  | zero => intro k buf _; simp [Table.cellLoop, concat]
  | succ n ih =>
    intro k buf hle
    have hlt : b + k < pre.length := by omega
    have hidx : (b : Int) + (k : Int) = ((b + k : Nat) : Int) := by push_cast; rfl
    have hk : (k : Int) + 1 = ((k + 1 : Nat) : Int) := by push_cast; rfl
    simp only [Table.cellLoop, hidx, writeCell_set table pre rest htexts buf (b + k) hlt, hk]
    rw [ih (k + 1) _ (by omega)]
    rw [List.drop_eq_getElem_cons hlt]
    simp [concat, String.append_assoc, Nat.add_assoc]

theorem cellLoop_unset (table : Table) (pre : List String) (rest : List (Option Text))
    (htexts : table.texts = pre.map (fun d => some (NewText d)) ++ none :: rest) (b : Nat) :
    ∀ (n k : Nat) (buf : Buffer), b + k ≤ pre.length → pre.length < b + k + n →
    table.cellLoop (b : Int) n (k : Int) buf = .error .nilDereference := by
  intro n
  induction n with
  | zero => intro k buf h1 h2; omega
  | succ n ih =>
    intro k buf h1 h2
    have hidx : (b : Int) + (k : Int) = ((b + k : Nat) : Int) := by push_cast; rfl
    have hk : (k : Int) + 1 = ((k + 1 : Nat) : Int) := by push_cast; rfl
    by_cases heq : b + k = pre.length
    · simp only [Table.cellLoop, hidx, heq, writeCell_unset table pre rest htexts buf]
    · have hlt : b + k < pre.length := by omega
      simp only [Table.cellLoop, hidx,
        writeCell_set table pre (none :: rest) htexts buf (b + k) hlt, hk]
      exact ih (k + 1) _ (by omega) (by omega)

theorem rowLoop_set (table : Table) (pre : List String) (rest : List (Option Text))
    (htexts : table.texts = pre.map (fun d => some (NewText d)) ++ rest) (col : Nat)
    (hcol : table.col = (col : Int)) :
    ∀ (n r : Nat) (buf : Buffer), (r + n) * col ≤ pre.length →
    table.rowLoop n (r : Int) buf
      = .ok (buf ++ concat ((rowsOf col n (pre.drop (r * col))).map (rowLine table.format))) := by
  intro n
  induction n with
  | zero => intro r buf _; simp [Table.rowLoop, rowsOf, concat]
  | succ n ih =>
    intro r buf hle
    have hbase : (r : Int) * (col : Int) = ((r * col : Nat) : Int) := by push_cast; rfl
    have hr : (r : Int) + 1 = ((r + 1 : Nat) : Int) := by push_cast; rfl
    have hle1 : r * col + 0 + col ≤ pre.length := by
      have : (r + (n + 1)) * col = r * col + n * col + col := by ring
      omega
    have h0 := cellLoop_set table pre rest htexts (r * col) col 0 buf hle1
    simp only [Nat.cast_zero] at h0
    simp only [Table.rowLoop, hcol, hbase, Int.toNat_ofNat, h0, hr]
    rw [ih (r + 1) _ (by rw [Nat.add_assoc, Nat.add_comm 1 n]; exact hle)]
    have hdrop : List.drop col (List.drop (r * col) pre) = List.drop ((r + 1) * col) pre := by
      rw [List.drop_drop]
      congr 1
      ring
    simp [rowsOf, concat, rowLine, writeLine, WriteString, String.append_assoc, hdrop]

theorem rowLoop_unset (table : Table) (pre : List String) (rest : List (Option Text))
    (htexts : table.texts = pre.map (fun d => some (NewText d)) ++ none :: rest) (col : Nat)
    (hcol : table.col = (col : Int)) :
    ∀ (n r : Nat) (buf : Buffer), r * col ≤ pre.length → pre.length < (r + n) * col →
    table.rowLoop n (r : Int) buf = .error .nilDereference := by
  intro n
  induction n with
  | zero => intro r buf h1 h2; simp at h2; omega
  | succ n ih =>
    intro r buf h1 h2
    have hbase : (r : Int) * (col : Int) = ((r * col : Nat) : Int) := by push_cast; rfl
    have hr : (r : Int) + 1 = ((r + 1 : Nat) : Int) := by push_cast; rfl
    have hsucc : (r + 1) * col = r * col + col := by ring
    by_cases hhere : pre.length < (r + 1) * col
    · have h0 := cellLoop_unset table pre rest htexts (r * col) col 0 buf (by omega) (by omega)
      simp only [Nat.cast_zero] at h0
      simp only [Table.rowLoop, hcol, hbase, Int.toNat_ofNat, h0]
    · have h0 := cellLoop_set table pre (none :: rest) htexts (r * col) col 0 buf (by omega)
      simp only [Nat.cast_zero] at h0
      simp only [Table.rowLoop, hcol, hbase, Int.toNat_ofNat, h0, hr]
      exact ih (r + 1) _ (by omega) (by rw [Nat.add_assoc, Nat.add_comm 1 n]; exact h2)

theorem build_set (table : Table) (row col : Nat) (ds : List String) (buf : Buffer)
    (hrow : 1 ≤ row) (htr : table.row = (row : Int)) (htc : table.col = (col : Int))
    (hmax : 0 ≤ table.maxLength) (htexts : table.texts = ds.map (fun d => some (NewText d)))
    (hlen : ds.length = row * col) :
    table.Build buf = .ok (buf ++ tableLines table.format table.maxLength.toNat row col ds) := by
  have htexts' : table.texts = ds.map (fun d => some (NewText d)) ++ [] := by simp [htexts]
  have hle1 : 0 + 0 + col ≤ ds.length := by
    rw [hlen]
    have : 1 * col ≤ row * col := Nat.mul_le_mul_right col hrow
    omega
  have h0 := cellLoop_set table ds [] htexts' 0 col 0 buf hle1
  simp only [Nat.cast_zero] at h0
  have hneg : ¬ ((col : Int) < 0 ∨ table.maxLength < 0) := by omega
  have hrows : ((row : Int) - 1).toNat = row - 1 := by omega
  have hone : (1 : Int) = ((1 : Nat) : Int) := rfl
  have hle2 : (1 + (row - 1)) * col ≤ ds.length := by
    rw [hlen]
    have : 1 + (row - 1) = row := by omega
    rw [this]
  unfold Table.Build
  simp only [htc, htr, Int.toNat_ofNat, h0, hneg, if_false, hrows]
  rw [hone, rowLoop_set table ds [] htexts' col htc (row - 1) 1 _ hle2]
  simp [tableLines, rowLine, separatorLine, repeat_eq_concat, writeLine, newLine, WriteString,
    String.append_assoc]

theorem build_unset (table : Table) (row col : Nat) (pre : List String)
    (rest : List (Option Text)) (buf : Buffer) (hrow : 1 ≤ row)
    (htr : table.row = (row : Int)) (htc : table.col = (col : Int))
    (hmax : 0 ≤ table.maxLength)
    (htexts : table.texts = pre.map (fun d => some (NewText d)) ++ none :: rest)
    (hlen : table.texts.length = row * col) :
    table.Build buf = .error .nilDereference := by
  have hpre : pre.length < row * col := by
    rw [← hlen, htexts]
    simp
  unfold Table.Build
  by_cases hhead : pre.length < col
  · have h0 := cellLoop_unset table pre rest htexts 0 col 0 buf (by omega) (by omega)
    simp only [Nat.cast_zero] at h0
    simp only [htc, Int.toNat_ofNat, h0]
  · have h0 := cellLoop_set table pre (none :: rest) htexts 0 col 0 buf (by omega)
    simp only [Nat.cast_zero] at h0
    have hneg : ¬ ((col : Int) < 0 ∨ table.maxLength < 0) := by omega
    have hrows : ((row : Int) - 1).toNat = row - 1 := by omega
    have hone : (1 : Int) = ((1 : Nat) : Int) := rfl
    have hrw : (1 + (row - 1)) * col = row * col := by
      have : 1 + (row - 1) = row := by omega
      rw [this]
    simp only [htc, htr, Int.toNat_ofNat, h0, hneg, if_false, hrows]
    rw [hone, rowLoop_unset table pre rest htexts col htc (row - 1) 1 _ (by omega)
      (by rw [hrw]; exact hpre)]

/-- Below the width limit of `fmt` a cell is written padded to `maxLength`. -/
theorem format_padded (table : Table) (hmax : 0 ≤ table.maxLength)
    (hlim : table.maxLength < 10000010) :
    table.format = cellText table.maxLength.toNat := by
  funext s
  have hn : ¬ (table.maxLength.natAbs ≥ 10000010) := by omega
  have hw : table.maxLength.natAbs = table.maxLength.toNat := by omega
  rw [Table.format, if_neg hn, hw, cellText]

/-- From the width limit of `fmt` on, a cell is written as a format error. -/
theorem format_wide (table : Table) (hlim : 10000010 ≤ table.maxLength) (s : String) :
    table.format s = "| %!(NOVERB)%!(EXTRA string=" ++ s ++ ")" := by
  have hn : table.maxLength.natAbs ≥ 10000010 := by omega
  simp only [Table.format, hn, if_true]

theorem repeat_utf8ByteSize (n : Nat) : (strings.Repeat "a" n).utf8ByteSize = n := by
  induction n with
  | zero => rfl
  | succ n ih =>
    have happ : ∀ x y : String, (x ++ y).utf8ByteSize = x.utf8ByteSize + y.utf8ByteSize := by
      intro x y
      show String.utf8ByteSize ⟨x.data ++ y.data⟩ = _
      rw [String.utf8ByteSize_mk, String.utf8Len_append]
      rfl
    have hone : ("a" : String).utf8ByteSize = 1 := by decide
    rw [strings.Repeat, happ, ih, hone, Nat.add_comm]

theorem wrap64_of_range (x : Int) (hlo : -9223372036854775808 ≤ x)
    (hhi : x < 9223372036854775808) : wrap64 x = x := by
  unfold wrap64
  omega

theorem newTable_filled (row col : Nat) (hcap : (row : Int) * (col : Int) ≤ maxSliceLen) :
    NewTable row col = .ok (filled row col [] (row * col)) := by
  have hnn : (0 : Int) ≤ (row : Int) * (col : Int) := by positivity
  have hcap' : (row : Int) * (col : Int) ≤ 35184372088832 := hcap
  have hw : wrap64 ((row : Int) * (col : Int)) = (row : Int) * (col : Int) :=
    wrap64_of_range _ (by omega) (by omega)
  have htn : ((row : Int) * (col : Int)).toNat = row * col := by
    rw [← Nat.cast_mul, Int.toNat_ofNat]
  have hcond : ¬ ((row : Int) * (col : Int) < 0 ∨ (row : Int) * (col : Int) > maxSliceLen) := by
    intro h
    rcases h with h | h
    · omega
    · exact absurd hcap (Int.not_le.mpr h)
  simp only [NewTable, hw, hcond, if_false, htn]
  simp [filled, maxLen]

theorem tableScript_ok (row col : Int) (ds : List String) (t : Table)
    (hnew : NewTable row col = .ok t) : tableScript row col ds = .ok (t.AddAll ds) := by
  unfold tableScript
  rw [hnew]

theorem build_wide (table : Table) (s : String) (buf : Buffer) (hr : table.row = 1)
    (hc : table.col = 1) (htexts : table.texts = [some ⟨s⟩])
    (hlim : 10000010 ≤ table.maxLength) :
    table.Build buf
      = .ok (buf ++ ("| %!(NOVERB)%!(EXTRA string=" ++ (s ++ (")|\r\n"
          ++ ("| " ++ (strings.Repeat "-" table.maxLength.toNat ++ " |\r\n\r\n")))))) := by
  have h := build_set table 1 1 [s] buf (Nat.le_refl 1) hr hc (by omega) htexts rfl
  rw [h]
  simp only [tableLines, rowLine, separatorLine, rowsOf, List.take, List.map, concat,
    List.replicate, format_wide table hlim, Nat.sub_self, String.append_assoc,
    String.append_empty]
  rfl

theorem tableText_one (s : String) :
    ∃ r, tableText 1 1 [s] = "| " ++ (s ++ r) := by
  refine ⟨strings.Repeat " " (maxLen [s] - s.length)
    ++ (" " ++ ("|\r\n" ++ (separatorLine (maxLen [s]) 1 ++ "\r\n"))), ?_⟩
  simp only [tableText, tableLines, rowLine, rowsOf, Nat.sub_self, List.take, List.map, concat,
    cellText, String.append_assoc, String.append_empty, String.empty_append]

theorem repeat_succ (s : String) (n : Nat) :
    strings.Repeat s (n + 1) = s ++ strings.Repeat s n :=
  rfl

theorem wideCell_unfold : wideCell = "a" ++ strings.Repeat "a" 10000009 :=
  repeat_succ "a" 10000009

theorem noverb_differs (x y r : String)
    (heq : "" ++ ("| %!(NOVERB)%!(EXTRA string=" ++ (("a" ++ x) ++ (")|\r\n"
        ++ ("| " ++ (y ++ " |\r\n\r\n"))))) = "" ++ ("| " ++ (("a" ++ x) ++ r))) : False := by
  have hdata := congrArg String.data heq
  simp only [String.data_append] at hdata
  have h3 : (some '%' : Option Char) = some 'a' := congrArg (fun l => l.get? 2) hdata
  exact absurd h3 (by decide)

/-! ## Theorems on tables and headings -/

/-- C5 (as amended): a completely filled table whose cells are shorter than
10000010 bytes renders as header line, separator line, `row-1` body lines and
one blank line.  For `row ≥ 1`, `col ≥ 1`, a number of cells `row*col` that
`make` accepts, and `row*col` cells `ds` added by `Add` in order, `NewTable`
and every `Add` succeed, giving the table that holds `ds` in flat order with
`maxLength = maxLen ds`, and `Table.Build` returns and appends
`tableText row col ds`: the line of the first `col` cells, the line of `col`
runs of `maxLen ds` dashes, the lines of the remaining cells in row-major
order, each line ending with `|` and CRLF, and a final CRLF; each cell is
`"| "`, the text padded on the right to the global maximum cell length
`maxLen ds`, and `" "`. -/
theorem C5_table_build (row col : Nat) (ds : List String) (buf : Buffer) (hrow : 1 ≤ row)
    (_hcol : 1 ≤ col) (hlen : ds.length = row * col)
    (hcap : (row : Int) * (col : Int) ≤ maxSliceLen) (hwidth : maxLen ds < 10000010) :
    tableScript row col ds = .ok (filled row col ds 0, .receiver)
      ∧ (filled row col ds 0).Build buf = .ok (buf ++ tableText row col ds) := by
  constructor
  · have hnew : NewTable row col = .ok (filled row col [] (ds.length + 0)) := by
      rw [newTable_filled row col hcap, hlen, Nat.add_zero]
    have hadd := addAll_filled row col ds [] 0 (by simp [hlen])
    simp only [List.nil_append] at hadd
    rw [tableScript_ok _ _ ds _ hnew, hadd]
  · have hfmt : (filled row col ds 0).format = cellText (maxLen ds) := by
      have h := format_padded (filled row col ds 0) (by simp [filled]) (by simp [filled]; omega)
      simpa [filled] using h
    have h := build_set (filled row col ds 0) row col ds buf hrow rfl rfl (by simp [filled])
      (by simp [filled]) hlen
    rw [h, hfmt]
    simp [filled, tableText]

/-- C5, witness: `NewTable(2,2).Add("A").Add("BB").Add("C").Add("DDDD")`
renders as `"| A    | BB   |\r\n| ---- | ---- |\r\n| C    | DDDD |\r\n\r\n"`. -/
theorem C5_table_build_witness :
    (1 ≤ 2 ∧ ["A", "BB", "C", "DDDD"].length = 2 * 2
        ∧ ((2 : Nat) : Int) * ((2 : Nat) : Int) ≤ maxSliceLen
        ∧ maxLen ["A", "BB", "C", "DDDD"] < 10000010)
      ∧ tableScript ((2 : Nat) : Int) ((2 : Nat) : Int) ["A", "BB", "C", "DDDD"]
          = .ok (table22, .receiver)
      ∧ table22.Build "" = .ok "| A    | BB   |\r\n| ---- | ---- |\r\n| C    | DDDD |\r\n\r\n" :=
  ⟨by decide,
    C5_table_build 2 2 ["A", "BB", "C", "DDDD"] "" (by decide) (by decide) (by decide)
      (by decide) (by decide)⟩

/-- C5, counterexample: the 1 by 1 table whose cell holds 10000010 letters `a`.
`fmt` refuses the width 10000010 of the format `"| %-10000010s "`, so `Build`
writes `| %!(NOVERB)%!(EXTRA string=aaa...a)` where the padded cell `| aaa...a `
is expected. -/
theorem C5_counterexample :
    tableScript ((1 : Nat) : Int) ((1 : Nat) : Int) [wideCell] = .ok (wideTable, .receiver)
      ∧ wideTable.Build ""
          = .ok ("" ++ ("| %!(NOVERB)%!(EXTRA string=" ++ (wideCell ++ (")|\r\n"
              ++ ("| " ++ (strings.Repeat "-" 10000010 ++ " |\r\n\r\n"))))))
      ∧ wideTable.Build "" ≠ .ok ("" ++ tableText 1 1 [wideCell]) := by
  have hbuild := build_wide wideTable wideCell "" rfl rfl rfl (by decide)
  have hsize : wideCell.utf8ByteSize = 10000010 := repeat_utf8ByteSize 10000010
  refine ⟨?_, hbuild, ?_⟩
  · have hnew := newTable_filled 1 1 (by decide)
    have hadd := addAll_filled ((1 : Nat) : Int) ((1 : Nat) : Int) [wideCell] [] 0 (by decide)
    have hfill : filled ((1 : Nat) : Int) ((1 : Nat) : Int) ([] ++ [wideCell]) 0 = wideTable := by
      simp [filled, maxLen, hsize, wideTable, NewText]
    rw [hfill] at hadd
    rw [tableScript_ok _ _ [wideCell] _ hnew, ← hadd]
    rfl
  · rw [hbuild]
    obtain ⟨r, hr⟩ := tableText_one wideCell
    rw [hr]
    rw [wideCell_unfold]
    intro heq
    exact noverb_differs _ _ _ (Except.ok.inj heq)

/-- C6: table capacity.  On a table whose number of added cells equals
`row*col`, `Add` panics and `AddIgnoreError` returns nil, and after either
call the table (cells, size, maxLength) is what it was. -/
theorem C6_table_capacity (table : Table) (data : String)
    (hfull : table.size = table.row * table.col) :
    table.Add data = (table, .panicked (.raised "the table size will overflow"))
      ∧ table.AddIgnoreError data = (table, .nil) := by
  simp [Table.Add, Table.AddIgnoreError, hfull]

/-- C6, witness: the fifth add to a 2 by 2 table. -/
theorem C6_table_capacity_witness :
    tableScript 2 2 ["A", "BB", "C", "DDDD"] = .ok (table22, .receiver)
      ∧ table22.size = table22.row * table22.col
      ∧ table22.Add "E" = (table22, .panicked (.raised "the table size will overflow"))
      ∧ table22.AddIgnoreError "E" = (table22, .nil) :=
  ⟨by decide, by decide, C6_table_capacity table22 "E" (by decide)⟩

/-- C7, evaluation at the failing input: on the filled 2 by 3 table,
`Update(2, 1, "X")` returns normally but replaces the cell at flat index
`(2-1)*row+(1-1) = 2`, which `Table.Build` prints in row 1, column 3; the cell
at flat index `(2-1)*col+(1-1) = 3`, printed in row 2, column 1, keeps `d`. -/
theorem C7_update_wrong_cell :
    tableScript 2 3 ["a", "b", "c", "d", "e", "f"] = .ok (table23, .receiver)
      ∧ table23.Update 2 1 "X"
          = ({ table23 with
                texts := [some ⟨"a"⟩, some ⟨"b"⟩, some ⟨"X"⟩, some ⟨"d"⟩, some ⟨"e"⟩, some ⟨"f"⟩] },
              .receiver)
      ∧ (table23.Update 2 1 "X").1.Build ""
          = .ok "| a | b | X |\r\n| - | - | - |\r\n| d | e | f |\r\n\r\n" := by
  decide

/-- C8, evaluation at the failing input: on the filled 3 by 1 table the
in-range coordinate `(3, 1)` passes the range check, `maxLength` is raised to
the length of the new text, and the store at flat index `(3-1)*row+(1-1) = 6`
is out of the bounds of the 3 cells: the call panics. -/
theorem C8_update_in_range_panics :
    tableScript 3 1 ["a", "b", "c"] = .ok (table31, .receiver)
      ∧ table31.Update 3 1 "xx"
          = ({ table31 with maxLength := 2 }, .panicked .indexOutOfRange) := by
  decide

/-- C9, evaluation at the failing input: two successive calls of `Title.Build`
on the level-1 heading `t`.  The first call appends `# t` and leaves the text
payload `# t`; the second call appends `# # t`. -/
theorem C9_title_build_twice :
    (NewTitleWithText 1 "t").Build "" = .ok (⟨1, some ⟨"# t"⟩⟩, "# t\r\n\r\n\r\n")
      ∧ (⟨1, some ⟨"# t"⟩⟩ : Title).Build "# t\r\n\r\n\r\n"
          = .ok (⟨1, some ⟨"# # t"⟩⟩, "# t\r\n\r\n\r\n" ++ "# # t\r\n\r\n\r\n")
      ∧ (⟨1, some ⟨"# t"⟩⟩ : Title) ≠ NewTitleWithText 1 "t" := by
  decide

/-- C10, evaluation at the failing input: `Title.Build` on the level-1 heading
`t` appends the heading line, its CRLF and two further CRLFs, whereas
`Text.Build` on the same line appends the line, its CRLF and one further CRLF. -/
theorem C10_title_two_blank_lines :
    ((NewTitleWithText 1 "t").Build "").map Prod.snd = .ok ("# t" ++ "\r\n" ++ "\r\n" ++ "\r\n")
      ∧ (NewText "# t").Build "" = "# t" ++ "\r\n" ++ "\r\n"
      ∧ ((NewTitleWithText 1 "t").Build "").map Prod.snd ≠ .ok ("# t" ++ "\r\n" ++ "\r\n") := by
  decide

/-! ## Theorems on headings, list construction and documents -/

/-- C11: the first render of a heading of level `n` with text `text` writes
the line made of exactly `n` characters `#`, one space and the text verbatim;
for level 3 the line is `### ` followed by the text, whatever the text (also
when it holds `#` characters itself). -/
theorem C11_heading_marker (n : Nat) (text : String) (buf : Buffer) :
    ((NewTitleWithText n text).Build buf).map Prod.snd
        = .ok (buf ++ (strings.Repeat "#" n ++ " " ++ text) ++ "\r\n" ++ "\r\n" ++ "\r\n")
      ∧ (strings.Repeat "#" n).data = List.replicate n '#'
      ∧ ((NewTitleWithText 3 text).Build buf).map Prod.snd
        = .ok (buf ++ ("###" ++ " " ++ text) ++ "\r\n" ++ "\r\n" ++ "\r\n") := by
  refine ⟨?_, ?_, ?_⟩
  · simp [Title.Build, NewTitleWithText, NewText, Text.Build, newLine, writeLine, WriteString,
      Except.map, String.append_assoc]
  · induction n with
    | zero => rfl
    | succ n ih => simp [strings.Repeat, ih, List.replicate_succ]
  · have h3 : strings.Repeat "#" 3 = "###" := by decide
    simp [Title.Build, NewTitleWithText, NewText, Text.Build, newLine, writeLine, WriteString,
      Except.map, String.append_assoc, h3]

/-- C12, evaluation at the failing input: a new document to which the level-1
heading `T` is joined twice by `Join(t, t)`.  `Join` keeps both handlers in
order.  Built on its own, the heading writes `# T` and two blank lines.
`Store` writes `# T` at the first position and `# # T` at the second, because
the first `Build` has overwritten the text of the heading with the prefixed
line, so the bytes written are not the output of the node taken twice. -/
theorem C12_store_heading_joined_twice :
    (New "README.md").Join [.title 0, .title 0]
        = { filename := "README.md", buf := "", handlers := [.title 0, .title 0] }
      ∧ Handler.Build 0 ⟨[], []⟩ [NewTitleWithText 1 "T"] (.title 0) ""
          = .ok ([⟨1, some ⟨"# T"⟩⟩], "# T\r\n\r\n\r\n")
      ∧ Markdown.Store 0 ⟨[], []⟩ [NewTitleWithText 1 "T"]
          ((New "README.md").Join [.title 0, .title 0]) false
          = .ok ([⟨1, some ⟨"# # T"⟩⟩],
              { filename := "README.md", buf := "", handlers := [.title 0, .title 0] },
              "# T\r\n\r\n\r\n" ++ "# # T\r\n\r\n\r\n")
      ∧ "# T\r\n\r\n\r\n" ++ "# # T\r\n\r\n\r\n" ≠ "# T\r\n\r\n\r\n" ++ "# T\r\n\r\n\r\n" := by
  decide

/-- C13: `List.AppendList(child)` on the list at address `list`.  When the list
is empty (its tail is nil) the call fails with a nil dereference.  When the
tail is the item `node` at address `t`, the call returns normally; afterwards
the item at `t` has `child` as its child list (whatever child it had before),
with the same text and next link, every other item is as before, and so is
every list (so head and tail are unchanged). -/
theorem C13_append_list (h : Heap) (list : Nat) (target : MdList) (child : Option Nat)
    (hl : h.lists[list]? = some target) :
    (target.tail = none → MdList.AppendList h list child = .error .nilDereference)
    ∧ (∀ (t : Nat) (node : Li), target.tail = some t → h.lis[t]? = some node →
        ∃ h', MdList.AppendList h list child = .ok h'
          ∧ h'.lists = h.lists
          ∧ h'.lis[t]? = some { child := child, next := node.next, text := node.text }
          ∧ h'.lis.length = h.lis.length
          ∧ ∀ q, q ≠ t → h'.lis[q]? = h.lis[q]?) := by
  constructor
  · intro ht
    simp [MdList.AppendList, hl, ht]
  · intro t node ht hn
    have hlt : t < h.lis.length := by
      rcases Nat.lt_or_ge t h.lis.length with hlt | hge
      · exact hlt
      · rw [List.getElem?_eq_none hge] at hn
        cases hn
    refine ⟨{ h with lis := h.lis.set t { node with child := child } }, ?_, rfl, ?_, ?_, ?_⟩
    · simp [MdList.AppendList, hl, ht, Li.AppendList, hn]
    · simp [hlt]
    · simp
    · intro q hq
      simp [List.getElem?_set, Ne.symm hq]

theorem segment_length (ts : List String) : ∀ a, (segment a ts).length = ts.length := by
  induction ts with
  | nil => intro a; rfl
  | cons t ts ih => intro a; simp [segment, ih]

theorem segment_last (init : List String) (x : String) : ∀ a,
    (segment a (init ++ [x]))[init.length]? = some { child := none, next := none, text := some ⟨x⟩ } := by
  induction init with
  | nil => intro a; simp [segment]
  | cons i init ih => intro a; simpa [segment] using ih (a + 1)

theorem segment_snoc (init : List String) (x t : String) : ∀ a,
    ((segment a (init ++ [x])) ++ [NewLi t]).set init.length
        { child := none, next := some (a + (init.length + 1)), text := some ⟨x⟩ }
      = segment a (init ++ [x] ++ [t]) := by
  induction init with
  | nil => intro a; simp [segment, NewLi, NewText]
  | cons i init ih =>
    intro a
    have := ih (a + 1)
    have e : a + 1 + (init.length + 1) = a + (init.length + 1 + 1) := by omega
    rw [e] at this
    simpa [segment] using this

theorem chainAt_segment (lists : List MdList) (ts : List String) : ∀ (X : List Li),
    Heap.chainAt { lis := X ++ segment X.length ts, lists := lists }
      (if ts = [] then none else some X.length) (Chain.ofTexts ts) = true := by
  induction ts with
  | nil => intro X; simp [Heap.chainAt, Chain.ofTexts]
  | cons t ts ih =>
    intro X
    have hX := ih (X ++ [⟨none, (if ts = [] then none else some (X.length + 1)), some ⟨t⟩⟩])
    simp only [List.length_append, List.length_singleton, List.append_assoc,
      List.singleton_append] at hX
    simp only [segment, Chain.ofTexts, Heap.chainAt, if_false, List.cons_ne_nil]
    rw [List.getElem?_append_right (Nat.le_refl _)]
    simp only [Nat.sub_self, List.getElem?_cons_zero, beq_self_eq_true, Bool.true_and]
    exact hX

theorem appendNewLi_appended (h : Heap) (list : Nat) (l : MdList) (pre : List String)
    (t : String) (hl : h.lists[list]? = some l) (hhead : l.head = none) :
    MdList.AppendNewLi (appended h list l pre) list t
      = .ok (appended h list l (pre ++ [t]), h.lis.length + pre.length) := by
  have hlt : list < h.lists.length := by
    rcases Nat.lt_or_ge list h.lists.length with hlt | hge
    · exact hlt
    · rw [List.getElem?_eq_none hge] at hl
      cases hl
  rcases List.eq_nil_or_concat pre with rfl | ⟨init, x, hpre⟩
  · simp [appended, MdList.AppendNewLi, hl, hhead, segment, NewLi, NewText]
  · rw [List.concat_eq_append] at hpre
    subst hpre
    have hne : init ++ [x] ≠ [] := by simp
    have hne2 : init ++ [x] ++ [t] ≠ [] := by simp
    have hlast := segment_last init x h.lis.length
    have hsnoc := segment_snoc init x t h.lis.length
    have hlen := segment_length (init ++ [x]) h.lis.length
    simp only [appended, hne, hne2, if_false, MdList.AppendNewLi,
      List.getElem?_set_self hlt, List.length_append, List.length_singleton,
      Nat.add_sub_cancel, hlen, List.set_set]
    rw [List.append_assoc h.lis, List.getElem?_append_right (Nat.le_add_right _ _),
      Nat.add_sub_cancel_left, List.getElem?_append_left (by simp [hlen]), hlast]
    simp only
    rw [List.set_append_right _ _ (Nat.le_add_right _ _), Nat.add_sub_cancel_left]
    simp only [Nat.add_assoc, hsnoc]

theorem appendAll_appended (h : Heap) (list : Nat) (l : MdList) (hl : h.lists[list]? = some l)
    (hhead : l.head = none) (ts : List String) : ∀ (pre : List String),
    MdList.AppendAll (appended h list l pre) list ts
      = .ok (appended h list l (pre ++ ts), List.range' (h.lis.length + pre.length) ts.length) := by
  induction ts with
  | nil => intro pre; simp [MdList.AppendAll]
  | cons t ts ih =>
    intro pre
    simp only [MdList.AppendAll, appendNewLi_appended h list l pre t hl hhead]
    rw [ih (pre ++ [t])]
    simp [List.range'_succ, Nat.add_assoc]

/-- C13, witness: on a newly constructed (empty) list the call fails; on the
list `a` of `deepHeap`, whose tail item `a` already owns the list at address
1, attaching the list at address 2 overwrites that child and changes nothing
else. -/
theorem C13_append_list_witness :
    MdList.AppendList freshHeap 0 (some 0) = .error .nilDereference
      ∧ ∃ h', MdList.AppendList deepHeap 0 (some 2) = .ok h'
          ∧ h'.lists = deepHeap.lists
          ∧ h'.lis[0]? = some { child := some 2, next := none, text := some ⟨"a"⟩ }
          ∧ h'.lis.length = deepHeap.lis.length
          ∧ ∀ q, q ≠ 0 → h'.lis[q]? = deepHeap.lis[q]? :=
  ⟨(C13_append_list freshHeap 0 ⟨none, none, some .OrderedList⟩ (some 0) rfl).1 rfl,
    (C13_append_list deepHeap 0 ⟨some 0, some 0, some .UnOrderedList⟩ (some 2) rfl).2 0
      ⟨some 1, none, some ⟨"a"⟩⟩ rfl rfl⟩

/-- C14: `AppendNewLi` on a newly constructed list (head and tail nil), at
address `list` of any heap `h`.  After the texts `pre`, a further call with
text `t` returns the address of the item it allocates; that item carries `t`,
has a nil `next` and no child, and is the new tail, while the head stays the
first item.  After the calls for `ts` as a whole: head is nil iff tail is nil
iff `ts` is empty, the chain from head visits exactly the items carrying `ts`
in append order, and the tail is the item returned by the last call. -/
theorem C14_append_new_li (h : Heap) (list : Nat) (l : MdList)
    (hl : h.lists[list]? = some l) (hhead : l.head = none) (htail : l.tail = none) :
    (∀ (pre : List String) (t : String),
      MdList.AppendNewLi (appended h list l pre) list t
          = .ok (appended h list l (pre ++ [t]), h.lis.length + pre.length)
        ∧ (appended h list l (pre ++ [t])).lis[h.lis.length + pre.length]? = some (NewLi t)
        ∧ (appended h list l (pre ++ [t])).lists[list]?
            = some { l with head := some h.lis.length,
                            tail := some (h.lis.length + pre.length) })
    ∧ (∀ ts : List String,
      MdList.AppendAll h list ts
          = .ok (appended h list l ts, List.range' h.lis.length ts.length)
        ∧ ∃ l', (appended h list l ts).lists[list]? = some l' ∧ l'.sorter = l.sorter
            ∧ (l'.head = none ↔ ts = []) ∧ (l'.tail = none ↔ ts = [])
            ∧ (appended h list l ts).chainAt l'.head (Chain.ofTexts ts) = true
            ∧ l'.tail = (List.range' h.lis.length ts.length).getLast?) := by
  have hlt : list < h.lists.length := by
    rcases Nat.lt_or_ge list h.lists.length with hlt | hge
    · exact hlt
    · rw [List.getElem?_eq_none hge] at hl
      cases hl
  constructor
  · intro pre t
    refine ⟨appendNewLi_appended h list l pre t hl hhead, ?_, ?_⟩
    · have hne : pre ++ [t] ≠ [] := by simp
      simp only [appended, hne, if_false]
      rw [List.getElem?_append_right (Nat.le_add_right _ _), Nat.add_sub_cancel_left,
        segment_last pre t]
      rfl
    · have hne : pre ++ [t] ≠ [] := by simp
      simp [appended, hne, List.getElem?_set_self hlt]
  · intro ts
    have hall := appendAll_appended h list l hl hhead ts []
    simp only [appended, if_true, List.nil_append, List.length_nil, Nat.add_zero] at hall
    refine ⟨by simpa [appended] using hall, ?_⟩
    by_cases hts : ts = []
    · subst hts
      exact ⟨l, by simpa [appended] using hl, rfl, by simp [hhead], by simp [htail],
        by simp [appended, hhead, Heap.chainAt, Chain.ofTexts], by simp [htail]⟩
    · refine ⟨{ l with head := some h.lis.length, tail := some (h.lis.length + (ts.length - 1)) },
        by simp [appended, hts, List.getElem?_set_self hlt], rfl, by simp [hts], by simp [hts],
        ?_, ?_⟩
      · have := chainAt_segment
          (h.lists.set list { l with head := some h.lis.length,
                                     tail := some (h.lis.length + (ts.length - 1)) }) ts h.lis
        simpa [appended, hts] using this
      · have hlen : ts.length ≠ 0 := by
          intro h0
          exact hts (List.length_eq_zero.mp h0)
        rw [List.getLast?_range']
        simp only [hlen, if_false, Option.some.injEq]
        omega

/-- C14, witness: `AppendNewLi("a")`, `AppendNewLi("b")`, `AppendNewLi("c")` on
a newly constructed ordered list. -/
theorem C14_append_new_li_witness :
    NewOrderedList ⟨[], []⟩ = (freshHeap, 0)
      ∧ MdList.AppendAll freshHeap 0 ["a", "b", "c"]
          = .ok ({ lis := [⟨none, some 1, some ⟨"a"⟩⟩, ⟨none, some 2, some ⟨"b"⟩⟩,
                           ⟨none, none, some ⟨"c"⟩⟩],
                   lists := [⟨some 0, some 2, some .OrderedList⟩] }, [0, 1, 2]) :=
  ⟨by decide,
    ((C14_append_new_li freshHeap 0 ⟨none, none, some .OrderedList⟩ rfl rfl rfl).2
      ["a", "b", "c"]).1⟩

/-- C15: on a table with fewer than `row*col` cells added (and the storage of
`row*col` cells that `NewTable` allocates), `Add` and `AddIgnoreError` both
return their receiver and leave the same table: `data` stored at flat index
`size`, `size` incremented, and `maxLength` raised to `len(data)` if that is
larger. -/
theorem C15_add_equivalent (table : Table) (data : String)
    (hroom : table.size < table.row * table.col) (hnn : 0 ≤ table.size)
    (hlen : (table.texts.length : Int) = table.row * table.col) :
    table.Add data
        = ({ table with
              maxLength := max table.maxLength (data.utf8ByteSize : Int),
              texts := table.texts.set table.size.toNat (some (NewText data)),
              size := table.size + 1 }, .receiver)
      ∧ table.AddIgnoreError data = table.Add data := by
  have hnot : ¬ (table.size ≥ table.row * table.col) := by omega
  have hstore : storeAt table.texts table.size (some (NewText data))
      = some (table.texts.set table.size.toNat (some (NewText data))) := by
    simp only [storeAt]
    rw [if_pos (by constructor <;> omega)]
  have hadd : table.Add data
      = ({ table with
            maxLength := max table.maxLength (data.utf8ByteSize : Int),
            texts := table.texts.set table.size.toNat (some (NewText data)),
            size := table.size + 1 }, .receiver) := by
    unfold Table.Add
    simp only [hnot, if_false]
    by_cases hgt : (data.utf8ByteSize : Int) > table.maxLength
    · simp only [hgt, if_true, hstore]
      rw [max_eq_right (by omega)]
    · simp only [hgt, if_false, hstore]
      rw [max_eq_left (by omega)]
  refine ⟨hadd, ?_⟩
  rw [hadd]
  unfold Table.AddIgnoreError
  simp only [hnot, if_false]
  by_cases hgt : (data.utf8ByteSize : Int) > table.maxLength
  · simp only [hgt, if_true, hstore]
    rw [max_eq_right (by omega)]
  · simp only [hgt, if_false, hstore]
    rw [max_eq_left (by omega)]

/-- C15, witness: the third cell of a 2 by 2 table, added by either entry point. -/
theorem C15_add_equivalent_witness :
    tableScript 2 2 ["A", "BB"]
        = .ok (⟨2, 2, [some ⟨"A"⟩, some ⟨"BB"⟩, none, none], 2, 2⟩, .receiver)
      ∧ (⟨2, 2, [some ⟨"A"⟩, some ⟨"BB"⟩, none, none], 2, 2⟩ : Table).Add "CCC"
        = (⟨2, 2, [some ⟨"A"⟩, some ⟨"BB"⟩, some ⟨"CCC"⟩, none], 3, 3⟩, .receiver)
      ∧ (⟨2, 2, [some ⟨"A"⟩, some ⟨"BB"⟩, none, none], 2, 2⟩ : Table).AddIgnoreError "CCC"
        = (⟨2, 2, [some ⟨"A"⟩, some ⟨"BB"⟩, none, none], 2, 2⟩ : Table).Add "CCC" :=
  ⟨by decide,
    (C15_add_equivalent ⟨2, 2, [some ⟨"A"⟩, some ⟨"BB"⟩, none, none], 2, 2⟩ "CCC" (by decide)
      (by decide) (by decide)).1,
    (C15_add_equivalent ⟨2, 2, [some ⟨"A"⟩, some ⟨"BB"⟩, none, none], 2, 2⟩ "CCC" (by decide)
      (by decide) (by decide)).2⟩

/-- C16, evaluation at the failing input: on the filled 3 by 1 table, whose
stored strings `a`, `b`, `c` have maximum length 1, the call
`Update(3, 1, "xx")` panics on its out-of-range store and stores nothing, yet
it has already raised `maxLength` to 2. -/
theorem C16_failed_update_raises_maxLength :
    tableScript 3 1 ["a", "b", "c"] = .ok (table31, .receiver)
      ∧ table31.maxLength = 1 ∧ maxLen ["a", "b", "c"] = 1
      ∧ (table31.Update 3 1 "xx").2 = .panicked .indexOutOfRange
      ∧ (table31.Update 3 1 "xx").1.texts = table31.texts
      ∧ (table31.Update 3 1 "xx").1.maxLength = 2 := by
  decide

theorem call_invariant (table table' : Table) (c : TableCall) (r : Returned)
    (hcall : table.call c = (table', r)) (hr : ∀ f, r ≠ .panicked f)
    (hinv : 0 ≤ table.size ∧ table.size ≤ table.row * table.col
      ∧ (table.texts.length : Int) = table.row * table.col
      ∧ ∀ i : Nat, (i : Int) < table.size → ∃ text, table.texts[i]? = some (some text)) :
    table'.row = table.row ∧ table'.col = table.col ∧ 0 ≤ table'.size ∧ table'.size ≤ table.row * table.col
      ∧ (table'.texts.length : Int) = table.row * table.col
      ∧ ∀ i : Nat, (i : Int) < table'.size → ∃ text, table'.texts[i]? = some (some text) := by
  obtain ⟨h3, h4, h5, h6⟩ := hinv
  have hadd : ∀ data (t1 : Table) (r1 : Returned), (table.Add data = (t1, r1)
      ∨ table.AddIgnoreError data = (t1, r1)) → (∀ f, r1 ≠ .panicked f) →
      t1.row = table.row ∧ t1.col = table.col ∧ 0 ≤ t1.size ∧ t1.size ≤ table.row * table.col
        ∧ (t1.texts.length : Int) = table.row * table.col
        ∧ ∀ i : Nat, (i : Int) < t1.size → ∃ text, t1.texts[i]? = some (some text) := by
    intro data t1 r1 hres hr1
    by_cases hfull : table.size ≥ table.row * table.col
    · have : t1 = table := by
        rcases hres with hres | hres
        · simp [Table.Add, hfull] at hres
          exact hres.1.symm
        · simp [Table.AddIgnoreError, hfull] at hres
          exact hres.1.symm
      subst this
      exact ⟨rfl, rfl, h3, h4, h5, h6⟩
    · have hstore : storeAt table.texts table.size (some (NewText data))
            = some (table.texts.set table.size.toNat (some (NewText data))) := by
        simp only [storeAt]
        rw [if_pos (by constructor <;> omega)]
      have ht1 : ∃ m, t1 =
          { table with
            maxLength := m,
            texts := table.texts.set table.size.toNat (some (NewText data)),
            size := table.size + 1 } := by
        rcases hres with hres | hres
        · unfold Table.Add at hres
          simp only [hfull, if_false] at hres
          by_cases hgt : (data.utf8ByteSize : Int) > table.maxLength
          · simp only [hgt, if_true, hstore, Prod.mk.injEq] at hres
            exact ⟨_, hres.1.symm⟩
          · simp only [hgt, if_false, hstore, Prod.mk.injEq] at hres
            exact ⟨_, hres.1.symm⟩
        · unfold Table.AddIgnoreError at hres
          simp only [hfull, if_false] at hres
          by_cases hgt : (data.utf8ByteSize : Int) > table.maxLength
          · simp only [hgt, if_true, hstore, Prod.mk.injEq] at hres
            exact ⟨_, hres.1.symm⟩
          · simp only [hgt, if_false, hstore, Prod.mk.injEq] at hres
            exact ⟨_, hres.1.symm⟩
      obtain ⟨m, rfl⟩ := ht1
      refine ⟨rfl, rfl, by simp only; omega, by simp only; omega, by simpa using h5, ?_⟩
      intro i hi
      simp only at hi
      by_cases heq : i = table.size.toNat
      · subst heq
        exact ⟨NewText data, by
          simp only
          rw [List.getElem?_set_self (by omega)]⟩
      · obtain ⟨text, htext⟩ := h6 i (by omega)
        exact ⟨text, by
          simp only
          rw [List.getElem?_set_ne (Ne.symm heq)]
          exact htext⟩
  cases c with
  | Add data => exact hadd data table' r (Or.inl hcall) hr
  | AddIgnoreError data => exact hadd data table' r (Or.inr hcall) hr
  | Update rowIdx colIdx data =>
    simp only [Table.call] at hcall
    unfold Table.Update at hcall
    simp only at hcall
    generalize wrap64 (rowIdx - 1) = ri at hcall
    generalize wrap64 (colIdx - 1) = ci at hcall
    by_cases hrange : ri < 0 ∨ ri ≥ table.row ∨ ci < 0 ∨ ci ≥ table.col
    · simp only [hrange, if_true, Prod.mk.injEq] at hcall
      exact absurd hcall.2.symm (hr _)
    · simp only [hrange, if_false] at hcall
      have key : ∀ (index m : Int), (match storeAt table.texts index (some (NewText data)) with
          | none => (({ table with maxLength := m } : Table), Returned.panicked .indexOutOfRange)
          | some texts => ({ table with maxLength := m, texts := texts }, .receiver))
          = (table', r) →
          table'.row = table.row ∧ table'.col = table.col ∧ 0 ≤ table'.size ∧ table'.size ≤ table.row * table.col
            ∧ (table'.texts.length : Int) = table.row * table.col
            ∧ ∀ i : Nat, (i : Int) < table'.size →
                ∃ text, table'.texts[i]? = some (some text) := by
        intro index m hm
        cases hst : storeAt table.texts index (some (NewText data)) with
        | none =>
          simp only [hst, Prod.mk.injEq] at hm
          exact absurd hm.2.symm (hr _)
        | some texts =>
          simp only [hst, Prod.mk.injEq] at hm
          obtain ⟨rfl, -⟩ := hm
          simp only [storeAt] at hst
          split at hst
          · simp only [Option.some.injEq] at hst
            subst hst
            refine ⟨rfl, rfl, h3, h4, by simpa using h5, ?_⟩
            intro i hi
            obtain ⟨text, htext⟩ := h6 i hi
            simp only
            by_cases hq : index.toNat = i
            · subst hq
              exact ⟨NewText data, by rw [List.getElem?_set_self (by omega)]⟩
            · exact ⟨text, by rw [List.getElem?_set_ne hq]; exact htext⟩
          · cases hst
      by_cases hgt : (data.utf8ByteSize : Int) > table.maxLength
      · simp only [hgt, if_true] at hcall
        exact key _ _ hcall
      · simp only [hgt, if_false] at hcall
        exact key _ _ hcall

theorem calls_invariant (cs : List TableCall) : ∀ (table t : Table),
    table.calls cs = some t →
    (0 ≤ table.size ∧ table.size ≤ table.row * table.col
      ∧ (table.texts.length : Int) = table.row * table.col
      ∧ ∀ i : Nat, (i : Int) < table.size → ∃ text, table.texts[i]? = some (some text)) →
    t.row = table.row ∧ t.col = table.col ∧ 0 ≤ t.size ∧ t.size ≤ table.row * table.col
      ∧ (t.texts.length : Int) = table.row * table.col
      ∧ ∀ i : Nat, (i : Int) < t.size → ∃ text, t.texts[i]? = some (some text) := by
  induction cs with
  | nil =>
    intro table t hrun hinv
    simp only [Table.calls, Option.some.injEq] at hrun
    subst hrun
    exact ⟨rfl, rfl, hinv⟩
  | cons c cs ih =>
    intro table t hrun hinv
    cases hc : table.call c with
    | mk table' r =>
      have hstep : (∀ f, r ≠ .panicked f) ∧ table'.calls cs = some t := by
        cases r with
        | receiver => simpa [Table.calls, hc] using hrun
        | nil => simpa [Table.calls, hc] using hrun
        | panicked f => simp [Table.calls, hc] at hrun
      obtain ⟨e1, e2, h3, h4, h5, h6⟩ := call_invariant table table' c r hc hstep.1 hinv
      have := ih table' t hstep.2 (by rw [e1, e2]; exact ⟨h3, h4, h5, h6⟩)
      rw [e1, e2] at this
      exact this

/-- C17 (as amended): table invariant.  For `row, col ≥ 0` whose product is
below `2^63` (it does not wrap as a Go `int`), the table that
`NewTable(row, col)` creates has a storage of `row*col` nil cells and size 0,
and after every sequence of `Add`, `AddIgnoreError` and `Update` calls on it
that return normally, the dimensions are unchanged, `0 ≤ size ≤ row*col`, the
cell storage still has length `row*col`, and every flat index below `size`
holds a set cell. -/
theorem C17_table_invariant (row col : Int) (t0 : Table) (hrow : 0 ≤ row) (hcol : 0 ≤ col)
    (hprod : row * col < 9223372036854775808) (hnew : NewTable row col = .ok t0) :
    t0 = { row := row, col := col, texts := List.replicate (row * col).toNat none,
           size := 0, maxLength := 0 }
      ∧ ∀ (cs : List TableCall) (t : Table), t0.calls cs = some t →
          t.row = row ∧ t.col = col ∧ 0 ≤ t.size ∧ t.size ≤ row * col
            ∧ (t.texts.length : Int) = row * col
            ∧ ∀ i : Nat, (i : Int) < t.size → ∃ text, t.texts[i]? = some (some text) := by
  have hnn : 0 ≤ row * col := Int.mul_nonneg hrow hcol
  have hw : wrap64 (row * col) = row * col := wrap64_of_range _ (by omega) hprod
  have ht0 : t0 = { row := row, col := col, texts := List.replicate (row * col).toNat none,
                    size := 0, maxLength := 0 } := by
    unfold NewTable at hnew
    simp only [hw] at hnew
    split at hnew
    · cases hnew
    · exact (Except.ok.inj hnew).symm
  refine ⟨ht0, ?_⟩
  intro cs t hrun
  subst ht0
  exact calls_invariant cs _ t hrun
    ⟨Int.le_refl 0, hnn, by simp [Int.toNat_of_nonneg hnn], by
      intro i hi
      exact absurd hi (by simp only; omega)⟩

/-- C17, witness: the table of `example.go`, `NewTable(2, 2)` followed by three
`Add` calls and `Update(2, 2, ...)`. -/
theorem C17_table_invariant_witness :
    ((0 : Int) ≤ 2 ∧ (2 : Int) * 2 < 9223372036854775808
        ∧ NewTable 2 2 = .ok { row := 2, col := 2, texts := [none, none, none, none],
                               size := 0, maxLength := 0 })
      ∧ Table.calls { row := 2, col := 2, texts := [none, none, none, none],
                      size := 0, maxLength := 0 }
          [.Add "A", .Add "BB", .Add "C", .Update 2 2 "DDDD"] = some table22Updated
      ∧ (table22Updated.row = 2 ∧ table22Updated.col = 2 ∧ 0 ≤ table22Updated.size
          ∧ table22Updated.size ≤ 2 * 2 ∧ (table22Updated.texts.length : Int) = 2 * 2
          ∧ ∀ i : Nat, (i : Int) < table22Updated.size →
              ∃ text, table22Updated.texts[i]? = some (some text)) :=
  ⟨by decide, by decide,
    (C17_table_invariant 2 2 { row := 2, col := 2, texts := [none, none, none, none],
                               size := 0, maxLength := 0 }
      (by decide) (by decide) (by decide) (by decide)).2
      [.Add "A", .Add "BB", .Add "C", .Update 2 2 "DDDD"] table22Updated (by decide)⟩

/-- C17, counterexample: `NewTable(1<<32, 1<<32)`.  Both dimensions are
non-negative, the product `2^64` wraps to 0 as a Go `int`, and `make` returns a
storage without cells: the table is created, and before any call its storage
has length 0, not `row*col`. -/
theorem C17_counterexample :
    (0 : Int) ≤ 4294967296
      ∧ wrap64 (4294967296 * 4294967296) = 0
      ∧ NewTable 4294967296 4294967296 = .ok wrappedTable
      ∧ wrappedTable.calls [] = some wrappedTable
      ∧ (wrappedTable.texts.length : Int) = 0
      ∧ (wrappedTable.texts.length : Int) ≠ wrappedTable.row * wrappedTable.col := by
  decide

theorem cells_cases (l : List (Option Text)) :
    (∃ ds : List String, l = ds.map (fun d => some (NewText d)))
      ∨ (∃ (pre : List String) (rest : List (Option Text)),
          l = pre.map (fun d => some (NewText d)) ++ none :: rest) := by
  induction l with
  | nil => exact Or.inl ⟨[], rfl⟩
  | cons c l ih =>
    cases c with
    | none => exact Or.inr ⟨[], l, rfl⟩
    | some text =>
      rcases ih with ⟨ds, rfl⟩ | ⟨pre, rest, rfl⟩
      · exact Or.inl ⟨text.line :: ds, rfl⟩
      · exact Or.inr ⟨text.line :: pre, rest, rfl⟩

/-- C20: `Table.Build` on a table with `row ≥ 1`, `col ≥ 1` and the storage of
`row*col` cells that `NewTable` allocates.  When every cell is set, the call
returns and appends the rendering of the cells at the flat indexes
`0..row*col-1`, in this order, each written by `fmt.Sprintf` with the format of
the table (padded to `maxLength` while `maxLength` is below the width limit
10000010 of `fmt`).  When a cell is unset, the call fails with a nil
dereference at the first such cell; it never fails by indexing outside the
storage and never prints an empty cell.  Hence the call completes if and only
if all `row*col` cells are set. -/
theorem C20_table_build_complete (table : Table) (row col : Nat) (buf : Buffer)
    (hrow : 1 ≤ row) (_hcol : 1 ≤ col) (htr : table.row = (row : Int))
    (htc : table.col = (col : Int)) (hmax : 0 ≤ table.maxLength)
    (hlen : table.texts.length = row * col) :
    (∀ ds : List String, table.texts = ds.map (fun d => some (NewText d)) →
      table.Build buf = .ok (buf ++ tableLines table.format table.maxLength.toNat row col ds))
    ∧ (table.maxLength < 10000010 → table.format = cellText table.maxLength.toNat)
    ∧ (∀ (pre : List String) (rest : List (Option Text)),
        table.texts = pre.map (fun d => some (NewText d)) ++ none :: rest →
        table.Build buf = .error .nilDereference)
    ∧ ((∃ out, table.Build buf = .ok out) ↔ ∀ cell ∈ table.texts, cell ≠ none) := by
  have hset : ∀ ds : List String, table.texts = ds.map (fun d => some (NewText d)) →
      table.Build buf
        = .ok (buf ++ tableLines table.format table.maxLength.toNat row col ds) := by
    intro ds hds
    exact build_set table row col ds buf hrow htr htc hmax hds (by
      rw [← hlen, hds]
      simp)
  have hunset : ∀ (pre : List String) (rest : List (Option Text)),
      table.texts = pre.map (fun d => some (NewText d)) ++ none :: rest →
      table.Build buf = .error .nilDereference := by
    intro pre rest hpre
    exact build_unset table row col pre rest buf hrow htr htc hmax hpre hlen
  refine ⟨hset, format_padded table hmax, hunset, ?_⟩
  rcases cells_cases table.texts with ⟨ds, hds⟩ | ⟨pre, rest, hpre⟩
  · constructor
    · intro _ cell hcell hnone
      rw [hds] at hcell
      subst hnone
      simp at hcell
    · intro _
      exact ⟨_, hset ds hds⟩
  · constructor
    · rintro ⟨out, hout⟩
      rw [hunset pre rest hpre] at hout
      cases hout
    · intro hall
      exact absurd rfl (hall none (by rw [hpre]; simp))

/-- C20, witness: the 2 by 2 table of `example.go` renders once its fourth cell
is set by `Update(2, 2, ...)`, and fails with a nil dereference before that. -/
theorem C20_table_build_complete_witness :
    Table.calls { row := 2, col := 2, texts := List.replicate ((2 : Int) * 2).toNat none,
                  size := 0, maxLength := 0 }
        [.Add "A", .Add "BB", .Add "C"] = some table22Partial
      ∧ table22Partial.Build "" = .error .nilDereference
      ∧ table22Updated.Build ""
          = .ok ("" ++ "| A    | BB   |\r\n| ---- | ---- |\r\n| C    | DDDD |\r\n\r\n") :=
  ⟨by decide,
    (C20_table_build_complete table22Partial 2 2 "" (by decide) (by decide) rfl rfl (by decide)
      rfl).2.2.1 ["A", "BB", "C"] [] rfl,
    (C20_table_build_complete table22Updated 2 2 "" (by decide) (by decide) rfl rfl (by decide)
      rfl).1 ["A", "BB", "C", "DDDD"] rfl⟩

theorem ownLines_ordered (c : Chain) : ∀ (k d i : Nat),
    (c.ownLines .OrderedList k d)[i]?
      = (c.texts[i]?).map (fun t => indent d ++ toString (k + i) ++ ". " ++ t ++ "\r\n") := by
  induction c with
  | nil => intro k d i; simp [Chain.ownLines, Chain.texts]
  | li t rest ih =>
    intro k d i
    cases i with
    | zero => simp [Chain.ownLines, Chain.texts, itemLine]
    | succ i =>
      simp only [Chain.ownLines, Chain.texts, List.getElem?_cons_succ, ih (k + 1) d i]
      have : k + 1 + i = k + (i + 1) := by omega
      rw [this]
  | liWith t cs c rest _ ih =>
    intro k d i
    cases i with
    | zero => simp [Chain.ownLines, Chain.texts, itemLine]
    | succ i =>
      simp only [Chain.ownLines, Chain.texts, List.getElem?_cons_succ, ih (k + 1) d i]
      have : k + 1 + i = k + (i + 1) := by omega
      rw [this]

theorem ownLines_unordered (c : Chain) : ∀ (k d i : Nat),
    (c.ownLines .UnOrderedList k d)[i]?
      = (c.texts[i]?).map (fun t => indent d ++ "* " ++ t ++ "\r\n") := by
  induction c with
  | nil => intro k d i; simp [Chain.ownLines, Chain.texts]
  | li t rest ih =>
    intro k d i
    cases i with
    | zero => simp [Chain.ownLines, Chain.texts, itemLine]
    | succ i => simp only [Chain.ownLines, Chain.texts, List.getElem?_cons_succ, ih (k + 1) d i]
  | liWith t cs c rest _ ih =>
    intro k d i
    cases i with
    | zero => simp [Chain.ownLines, Chain.texts, itemLine]
    | succ i => simp only [Chain.ownLines, Chain.texts, List.getElem?_cons_succ, ih (k + 1) d i]

theorem lines_cons_of_firstText (c : Chain) (s : Sorter) (k d : Nat) (t : String)
    (ht : c.firstText = some t) :
    c.lines s k d = itemLine s k d t :: (c.lines s k d).tail := by
  cases c with
  | nil => simp [Chain.firstText] at ht
  | li t' rest =>
    simp only [Chain.firstText, Option.some.injEq] at ht
    subst ht
    simp [Chain.lines, Chain.body]
  | liWith t' cs c' rest =>
    simp only [Chain.firstText, Option.some.injEq] at ht
    subst ht
    simp [Chain.lines, Chain.body]

/-- C18: numbering continuation.  In an ordered list rendered at depth `d`,
let `pre` be the items before the `k`-th item (`k = pre.length + 1`), whatever
child lists they own, and `t` the text of the `k`-th item.  The rendering is
the lines of `pre` (with all lines of their child lists), then exactly the
line `d*3` spaces, the decimal numeral of `k`, `. `, `t`, CRLF, then the rest.
The `i`-th own line of the list (counting from 0) carries the number `i+1`. -/
theorem C18_numbering_continuation (h : Heap) (list : Nat) (l : MdList) (pre rest : Chain)
    (t : String) (buf : Buffer) (fuel d : Nat) (hl : h.lists[list]? = some l)
    (hs : l.sorter = some .OrderedList) (hc : h.chainAt l.head (pre.append rest) = true)
    (ht : rest.firstText = some t) (hf : pre.steps + rest.steps ≤ fuel) :
    Sorter.createSort fuel h buf list d
        = .ok (buf ++ concat (pre.body .OrderedList 1 d)
            ++ (strings.Repeat " " (d * 3) ++ toString (pre.length + 1) ++ ". " ++ t ++ "\r\n")
            ++ concat (rest.lines .OrderedList (pre.length + 1) d).tail)
      ∧ (∀ i : Nat, ((pre.append rest).ownLines .OrderedList 1 d)[i]?
          = ((pre.append rest).texts[i]?).map
              (fun x => strings.Repeat " " (d * 3) ++ toString (i + 1) ++ ". " ++ x ++ "\r\n"))
      ∧ ((pre.append rest).ownLines .OrderedList 1 d).Sublist
          ((pre.append rest).lines .OrderedList 1 d) := by
  refine ⟨?_, ?_, ?_⟩
  · have hst := steps_append pre rest
    rw [createSort_renders hl hs hc fuel d buf (by omega)]
    have hlines : (pre.append rest).lines .OrderedList 1 d
        = pre.body .OrderedList 1 d ++ rest.lines .OrderedList (1 + pre.length) d := by
      simp [Chain.lines, body_append]
    rw [hlines, Nat.add_comm 1 pre.length,
      lines_cons_of_firstText rest .OrderedList (pre.length + 1) d t ht]
    simp only [concat_append, concat, itemLine, indent, String.append_assoc, List.tail_cons]
  · intro i
    have := ownLines_ordered (pre.append rest) 1 d i
    simpa [indent, Nat.add_comm 1 i] using this
  · exact List.Sublist.trans (ownLines_sublist_body _ _ 1 d) (List.sublist_append_left _ _)

/-- C18, witness: in the ordered list `x`, `y`, `z` whose item `y` owns the
ordered list `p`, `q`, the third item is numbered 3 although the child list
of `y` has been rendered (and numbered from 1) before it. -/
theorem C18_numbering_continuation_witness :
    orderedNestedHeap.chainAt (some 0)
        ((Chain.li "x" (.liWith "y" .OrderedList (.li "p" (.li "q" .nil)) .nil)).append
          (.li "z" .nil)) = true
      ∧ Sorter.createSort 9 orderedNestedHeap "" 0 0
          = .ok ("" ++ "1. x\r\n2. y\r\n   1. p\r\n   2. q\r\n\r\n"
              ++ ("" ++ "3" ++ ". " ++ "z" ++ "\r\n") ++ "\r\n") :=
  ⟨by decide,
    (C18_numbering_continuation orderedNestedHeap 0 ⟨some 0, some 4, some .OrderedList⟩
      (.li "x" (.liWith "y" .OrderedList (.li "p" (.li "q" .nil)) .nil)) (.li "z" .nil) "z" "" 9
      0 rfl rfl (by decide) rfl (by decide)).1⟩

/-- C19: mixed composition.  When an item of a list with sorter `s`, rendered
at depth `d`, owns a child list with sorter `cs`, the child is rendered with
its own sorter at depth `d+1`, between the line of the item and the lines of
the following items, which keep the parent's marker and counter.  An unordered
child of an ordered parent has every own line marked `* `, while the parent's
own lines are numbered `1.`, `2.`, ...; an ordered child of an unordered
parent has its own lines numbered from `1.`, while the parent's own lines are
marked `* `. -/
theorem C19_mixed_composition (h : Heap) (list : Nat) (l : MdList) (s cs : Sorter)
    (pre c post : Chain) (t : String) (buf : Buffer) (fuel d : Nat)
    (hl : h.lists[list]? = some l) (hs : l.sorter = some s)
    (hc : h.chainAt l.head (pre.append (.liWith t cs c post)) = true)
    (hf : pre.steps + c.steps + post.steps + 2 ≤ fuel) :
    Sorter.createSort fuel h buf list d
        = .ok (buf ++ concat (pre.body s 1 d) ++ itemLine s (pre.length + 1) d t
            ++ concat (c.lines cs 1 (d + 1)) ++ concat (post.lines s (pre.length + 2) d))
      ∧ (s = .OrderedList → cs = .UnOrderedList →
          (∀ i : Nat, (c.ownLines cs 1 (d + 1))[i]?
            = (c.texts[i]?).map (fun x => indent (d + 1) ++ "* " ++ x ++ "\r\n"))
          ∧ ∀ i : Nat, ((pre.append (.liWith t cs c post)).ownLines s 1 d)[i]?
            = ((pre.append (.liWith t cs c post)).texts[i]?).map
                (fun x => indent d ++ toString (i + 1) ++ ". " ++ x ++ "\r\n"))
      ∧ (s = .UnOrderedList → cs = .OrderedList →
          (∀ i : Nat, (c.ownLines cs 1 (d + 1))[i]?
            = (c.texts[i]?).map
                (fun x => indent (d + 1) ++ toString (i + 1) ++ ". " ++ x ++ "\r\n"))
          ∧ ∀ i : Nat, ((pre.append (.liWith t cs c post)).ownLines s 1 d)[i]?
            = ((pre.append (.liWith t cs c post)).texts[i]?).map
                (fun x => indent d ++ "* " ++ x ++ "\r\n"))
      ∧ (c.ownLines cs 1 (d + 1)).Sublist (c.lines cs 1 (d + 1))
      ∧ ((pre.append (.liWith t cs c post)).ownLines s 1 d).Sublist
          ((pre.append (.liWith t cs c post)).lines s 1 d) := by
  refine ⟨?_, ?_, ?_, ?_, ?_⟩
  · have hst := steps_append pre (.liWith t cs c post)
    rw [createSort_renders hl hs hc fuel d buf (by simp [Chain.steps] at hst; omega)]
    simp [Chain.lines, body_append, Chain.body, concat_append, concat, String.append_assoc,
      Nat.add_comm 1, Nat.add_assoc]
  · rintro rfl rfl
    refine ⟨fun i => ownLines_unordered c 1 (d + 1) i, fun i => ?_⟩
    simpa [Nat.add_comm 1 i] using ownLines_ordered (pre.append (.liWith t _ c post)) 1 d i
  · rintro rfl rfl
    refine ⟨fun i => ?_, fun i => ownLines_unordered _ 1 d i⟩
    simpa [Nat.add_comm 1 i] using ownLines_ordered c 1 (d + 1) i
  · exact List.Sublist.trans (ownLines_sublist_body c cs 1 (d + 1))
      (List.sublist_append_left _ _)
  · exact List.Sublist.trans (ownLines_sublist_body _ s 1 d) (List.sublist_append_left _ _)

/-- C19, witness: the list of `example.go` (ordered `x`, `y`, `z`, the item `y`
owning the unordered `p`, `q`) and the opposite mix (unordered `a`, `b`, the
item `a` owning the ordered `p`, `q`). -/
theorem C19_mixed_composition_witness :
    mixedScript = .ok (mixedHeap, 0) ∧ numberedChildScript = .ok (numberedChildHeap, 0)
      ∧ Sorter.createSort 9 mixedHeap "" 0 0
          = .ok ("" ++ "1. x\r\n" ++ "2. y\r\n" ++ "   * p\r\n   * q\r\n\r\n" ++ "3. z\r\n\r\n")
      ∧ Sorter.createSort 9 numberedChildHeap "" 0 0
          = .ok ("" ++ "" ++ "* a\r\n" ++ "   1. p\r\n   2. q\r\n\r\n" ++ "* b\r\n\r\n") :=
  ⟨by decide, by decide,
    (C19_mixed_composition mixedHeap 0 ⟨some 0, some 4, some .OrderedList⟩ .OrderedList
      .UnOrderedList (.li "x" .nil) (.li "p" (.li "q" .nil)) (.li "z" .nil) "y" "" 9 0 rfl rfl
      (by decide) (by decide)).1,
    (C19_mixed_composition numberedChildHeap 0 ⟨some 0, some 1, some .UnOrderedList⟩
      .UnOrderedList .OrderedList .nil (.li "p" (.li "q" .nil)) (.li "b" .nil) "a" "" 9 0 rfl rfl
      (by decide) (by decide)).1⟩

end mkdown
